import Mathlib

/-!
Verification of the heapspurs heap-dump analyzer

A shallow embedding of the core of the `heapspurs` repository
(`pkg/heapdump` record model, pointer extractor, OID loader, and the
`pkg/treeclimber` index builder and traversal engine), with theorems
settling the frozen claims about the natural-language specification.

Modelling conventions:

* Go `uint64` values are `Nat`; where Go arithmetic can wrap
  (pointer-source addresses) the result is reduced `% 2^64`.
* Byte buffers are `List Nat` (one entry per byte).
* Go maps are association lists with prepend-insert and
  first-match lookup (so a later insert wins), or total functions
  `Nat -> List Record` for the multimap of owners.
* Go panics are modelled as an explicit `panicked` result constructor,
  distinct from returned error values.
* The general-recursive traversal procedures are modelled with an
  explicit fuel parameter; `fuelOut` means the budget ran out.
  Termination of the Go code corresponds to the existence of a fuel
  making the result different from `fuelOut`.
-/

namespace Heapspurs

/-- The modulus of Go `uint64` arithmetic, 2 to the 64. -/
def u64Mod : Nat := 18446744073709551616

/-- Lowercase hexadecimal rendering of a natural number, as Go `%x`. -/
def natHex (n : Nat) : String := String.mk (Nat.toDigits 16 n)

/-- First-match lookup in an association list (models a Go map whose
inserts prepend, so the most recent insert wins). -/
def lookupA {β : Type} : List (Nat × β) → Nat → Option β
  | [], _ => none
  | (k, v) :: t, a => if k = a then some v else lookupA t a

/-! ## Record data model (from `pkg/heapdump`, file part_000) -/

/-- Record `Object` (tag 1). -/
structure Object where
  Address : Nat
  Contents : List Nat
  Fields : List Nat
  Name : String
deriving DecidableEq

/-- Record `OtherRoot` (tag 2). -/
structure OtherRoot where
  Description : String
  Address : Nat
deriving DecidableEq

/-- Record `TypeDescriptor` (tag 3). -/
structure TypeDescriptor where
  Address : Nat
  TypeSize : Nat
  Name : String
  Indirect : Bool
deriving DecidableEq

/-- Record `Goroutine` (tag 4). -/
structure Goroutine where
  Address : Nat
  StackPointer : Nat
  RoutineId : Nat
  CreatorPointer : Nat
  Status : Nat
  System : Bool
  Background : Bool
  WaitStart : Nat
  WaitReason : String
  CurrentContextPointer : Nat
  OsThreadDescriptorAddress : Nat
  TopDefer : Nat
  TopPanic : Nat
deriving DecidableEq

/-- Record `StackFrame` (tag 5). -/
structure StackFrame where
  Address : Nat
  Depth : Nat
  ChildPointer : Nat
  Contents : List Nat
  EntryPc : Nat
  CurrentPc : Nat
  ContinuationPc : Nat
  Name : String
  Fields : List Nat
deriving DecidableEq

/-- Record `DumpParams` (tag 6). -/
structure DumpParams where
  BigEndian : Bool
  PointerSize : Nat
  HeapStart : Nat
  HeapEnd : Nat
  Architecture : String
  GoExperiment : String
  Ncpu : Nat
deriving DecidableEq

/-- Record `RegisteredFinalizer` (tag 7). -/
structure RegisteredFinalizer where
  ObjectAddress : Nat
  FinalizerAddress : Nat
  FinalizerEntryPc : Nat
  FinalizerType : Nat
  ObjectType : Nat
deriving DecidableEq

/-- Record `Itab` (tag 8). -/
structure Itab where
  Address : Nat
  TypeDescriptorAddress : Nat
deriving DecidableEq

/-- Record `OsThread` (tag 9). -/
structure OsThread where
  ThreadDescriptorAddress : Nat
  GoId : Nat
  OsId : Nat
deriving DecidableEq

/-- Record `MemStats` (tag 10); the field `PauseNs` is the 256-entry array. -/
structure MemStats where
  Alloc : Nat
  TotalAlloc : Nat
  Sys : Nat
  Lookups : Nat
  Mallocs : Nat
  Frees : Nat
  HeapAlloc : Nat
  HeapSys : Nat
  HeapIdle : Nat
  HeapInuse : Nat
  HeapReleased : Nat
  HeapObjects : Nat
  StackInuse : Nat
  StackSys : Nat
  MSpanInuse : Nat
  MSpanSys : Nat
  MCacheInuse : Nat
  MCacheSys : Nat
  BuckHashSys : Nat
  GCSys : Nat
  OtherSys : Nat
  NextGC : Nat
  LastGC : Nat
  PauseTotalNs : Nat
  PauseNs : List Nat
  NumGC : Nat
deriving DecidableEq

/-- Record `QueuedFinalizer` (tag 11); same layout as tag 7. -/
structure QueuedFinalizer where
  ObjectAddress : Nat
  FinalizerAddress : Nat
  FinalizerEntryPc : Nat
  FinalizerType : Nat
  ObjectType : Nat
deriving DecidableEq

/-- Record `DataSegment` (tag 12). -/
structure DataSegment where
  Address : Nat
  Contents : List Nat
  Fields : List Nat
deriving DecidableEq

/-- Record `BssSegment` (tag 13); same layout as tag 12. -/
structure BssSegment where
  Address : Nat
  Contents : List Nat
  Fields : List Nat
deriving DecidableEq

/-- Record `DeferRecord` (tag 14). -/
structure DeferRecord where
  Address : Nat
  ContainingGoroutine : Nat
  Arcp : Nat
  Pc : Nat
  FuncVal : Nat
  EntryPointPc : Nat
  Next : Nat
deriving DecidableEq

/-- Record `PanicRecord` (tag 15). -/
structure PanicRecord where
  Address : Nat
  Goroutine : Nat
  PanicArgType : Nat
  PanicArgData : Nat
  DeferRecordPtr : Nat
  Next : Nat
deriving DecidableEq

/-- A stack frame entry of an `AllocFreeProfileRecord`. -/
structure ProfFrame where
  Name : String
  Filename : String
  Line : Nat
deriving DecidableEq

/-- Record `AllocFreeProfileRecord` (tag 16). -/
structure AllocFreeProfileRecord where
  Id : Nat
  Size : Nat
  Frames : List ProfFrame
  AllocationCount : Nat
  FreeCount : Nat
deriving DecidableEq

/-- Record `AllocStackTraceSample` (tag 17). -/
structure AllocStackTraceSample where
  Address : Nat
  AllocFreeProfileRecordId : Nat
deriving DecidableEq

/-- The `Record` sum type: one variant per heap-dump record kind. -/
inductive Record where
  | eof : Record
  | object : Object → Record
  | otherRoot : OtherRoot → Record
  | typeDescriptor : TypeDescriptor → Record
  | goroutine : Goroutine → Record
  | stackFrame : StackFrame → Record
  | dumpParams : DumpParams → Record
  | registeredFinalizer : RegisteredFinalizer → Record
  | itab : Itab → Record
  | osThread : OsThread → Record
  | memStats : MemStats → Record
  | queuedFinalizer : QueuedFinalizer → Record
  | dataSegment : DataSegment → Record
  | bssSegment : BssSegment → Record
  | deferRecord : DeferRecord → Record
  | panicRecord : PanicRecord → Record
  | allocFreeProfileRecord : AllocFreeProfileRecord → Record
  | allocStackTraceSample : AllocStackTraceSample → Record
deriving DecidableEq

/-- The `Addressable` capability: exactly the Go types with a
`GetAddress() uint64` method satisfy the interface (note that this
includes `OtherRoot`, `DataSegment` and `BssSegment`). -/
def Record.getAddress? : Record → Option Nat
  | .object o => some o.Address
  | .otherRoot r => some r.Address
  | .typeDescriptor t => some t.Address
  | .goroutine g => some g.Address
  | .stackFrame s => some s.Address
  | .itab i => some i.Address
  | .dataSegment d => some d.Address
  | .bssSegment b => some b.Address
  | .deferRecord d => some d.Address
  | .panicRecord p => some p.Address
  | .allocStackTraceSample a => some a.Address
  | _ => none

/-- View of the `Owner` capability (address, contents, pointer-field
offsets). -/
structure OwnerView where
  Address : Nat
  Contents : List Nat
  Fields : List Nat
deriving DecidableEq

/-- The `Owner` capability: the four Go types with `GetContents` and
`GetFields` methods (`Object`, `StackFrame`, `DataSegment`,
`BssSegment`). -/
def Record.asOwner? : Record → Option OwnerView
  | .object o => some ⟨o.Address, o.Contents, o.Fields⟩
  | .stackFrame s => some ⟨s.Address, s.Contents, s.Fields⟩
  | .dataSegment d => some ⟨d.Address, d.Contents, d.Fields⟩
  | .bssSegment b => some ⟨b.Address, b.Contents, b.Fields⟩
  | _ => none

/-- Go `%T` on a record value (the dynamic type name). -/
def Record.typeName : Record → String
  | .eof => "*heapdump.Eof"
  | .object _ => "*heapdump.Object"
  | .otherRoot _ => "*heapdump.OtherRoot"
  | .typeDescriptor _ => "*heapdump.TypeDescriptor"
  | .goroutine _ => "*heapdump.Goroutine"
  | .stackFrame _ => "*heapdump.StackFrame"
  | .dumpParams _ => "*heapdump.DumpParams"
  | .registeredFinalizer _ => "*heapdump.RegisteredFinalizer"
  | .itab _ => "*heapdump.Itab"
  | .osThread _ => "*heapdump.OsThread"
  | .memStats _ => "*heapdump.MemStats"
  | .queuedFinalizer _ => "*heapdump.QueuedFinalizer"
  | .dataSegment _ => "*heapdump.DataSegment"
  | .bssSegment _ => "*heapdump.BssSegment"
  | .deferRecord _ => "*heapdump.DeferRecord"
  | .panicRecord _ => "*heapdump.PanicRecord"
  | .allocFreeProfileRecord _ => "*heapdump.AllocFreeProfileRecord"
  | .allocStackTraceSample _ => "*heapdump.AllocStackTraceSample"

/-! ## Record `String()` renderings -/

/-- Model of `StatusType.String()`: goroutine status names; 2 is not defined and
renders as "Unknown status 2". -/
def statusString (s : Nat) : String :=
  match s with
  | 0 => "Idle"
  | 1 => "Runnable"
  | 3 => "Syscall"
  | 4 => "Waiting"
  | n => "Unknown status " ++ toString n

/-- Model of `Object.GetName()`: the decoded name, or the literal "Object". -/
def Object.GetName (o : Object) : String :=
  if o.Name.length > 0 then o.Name else "Object"

/-- Model of `Object.String()`. -/
def objectString (o : Object) : String :=
  o.GetName ++ " @ 0x" ++ natHex o.Address ++ " with " ++
    toString o.Fields.length ++ " pointers in " ++
    toString o.Contents.length ++ " bytes"

/-- Model of `OtherRoot.String()`. -/
def otherRootString (r : OtherRoot) : String :=
  "OtherRoot @ 0x" ++ natHex r.Address ++ ": " ++ r.Description

/-- Model of `TypeDescriptor.String()`. -/
def typeDescriptorString (t : TypeDescriptor) : String :=
  "TypeDescriptor for \x27" ++ t.Name ++ "\x27 @ 0x" ++ natHex t.Address ++
    ": Objects are " ++ toString t.TypeSize ++ " bytes"

/-- Model of `Goroutine.String()`. -/
def goroutineString (g : Goroutine) : String :=
  if g.Status = 4 then
    "Goroutine[" ++ toString g.RoutineId ++ "] @ 0x" ++ natHex g.Address ++
      ": " ++ statusString g.Status ++ " (" ++ g.WaitReason ++ "), Stack @ 0x" ++
      natHex g.StackPointer
  else
    "Goroutine[" ++ toString g.RoutineId ++ "] @ 0x" ++ natHex g.Address ++
      ": " ++ statusString g.Status ++ ", Stack @ 0x" ++ natHex g.StackPointer

/-- Model of `StackFrame.String()`. -/
def stackFrameString (s : StackFrame) : String :=
  "StackFrame[" ++ toString s.Depth ++ "] @ 0x" ++ natHex s.Address ++ ": " ++
    s.Name ++ " with " ++ toString s.Fields.length ++ " pointers in " ++
    toString s.Contents.length ++ " bytes; child = 0x" ++ natHex s.ChildPointer

/-- Model of `DumpParams.String()`. -/
def dumpParamsString (p : DumpParams) : String :=
  "DumpParams: BigEndian=" ++ (if p.BigEndian then "true" else "false") ++
    ", PointerSize=" ++ toString p.PointerSize ++ ", Heap=0x" ++
    natHex p.HeapStart ++ "-0x" ++ natHex p.HeapEnd ++ ", Architecture=" ++
    p.Architecture ++ ", GOEXPERIMENT=" ++ p.GoExperiment ++ ", Cpus=" ++
    toString p.Ncpu

/-- Model of `RegisteredFinalizer.String()`. -/
def registeredFinalizerString (f : RegisteredFinalizer) : String :=
  "RegisteredFinalizer @ 0x" ++ natHex f.ObjectAddress ++ ": FuncVal: 0x" ++
    natHex f.FinalizerAddress ++ ", Type: 0x" ++ natHex f.FinalizerType ++
    ", Object Type: 0x" ++ natHex f.ObjectType

/-- Model of `QueuedFinalizer.String()`. -/
def queuedFinalizerString (f : QueuedFinalizer) : String :=
  "QueuedFinalizer @ 0x" ++ natHex f.ObjectAddress ++ ": FuncVal: 0x" ++
    natHex f.FinalizerAddress ++ ", Type: 0x" ++ natHex f.FinalizerType ++
    ", Object Type: 0x" ++ natHex f.ObjectType

/-- Model of `Itab.String()`. -/
def itabString (i : Itab) : String :=
  "Itab @ 0x" ++ natHex i.Address ++ ": 0x" ++ natHex i.TypeDescriptorAddress

/-- Model of `OsThread.String()`. -/
def osThreadString (t : OsThread) : String :=
  "OsThread @ 0x" ++ natHex t.ThreadDescriptorAddress ++ ": GoId = " ++
    toString t.GoId ++ "; OsId = 0x" ++ natHex t.OsId

/-- Go `%+v` of `MemStats` (struct braces written with hex escapes). -/
def memStatsString (m : MemStats) : String :=
  "MemStats: \x7bAlloc:" ++ toString m.Alloc ++
    " TotalAlloc:" ++ toString m.TotalAlloc ++
    " Sys:" ++ toString m.Sys ++
    " Lookups:" ++ toString m.Lookups ++
    " Mallocs:" ++ toString m.Mallocs ++
    " Frees:" ++ toString m.Frees ++
    " HeapAlloc:" ++ toString m.HeapAlloc ++
    " HeapSys:" ++ toString m.HeapSys ++
    " HeapIdle:" ++ toString m.HeapIdle ++
    " HeapInuse:" ++ toString m.HeapInuse ++
    " HeapReleased:" ++ toString m.HeapReleased ++
    " HeapObjects:" ++ toString m.HeapObjects ++
    " StackInuse:" ++ toString m.StackInuse ++
    " StackSys:" ++ toString m.StackSys ++
    " MSpanInuse:" ++ toString m.MSpanInuse ++
    " MSpanSys:" ++ toString m.MSpanSys ++
    " MCacheInuse:" ++ toString m.MCacheInuse ++
    " MCacheSys:" ++ toString m.MCacheSys ++
    " BuckHashSys:" ++ toString m.BuckHashSys ++
    " GCSys:" ++ toString m.GCSys ++
    " OtherSys:" ++ toString m.OtherSys ++
    " NextGC:" ++ toString m.NextGC ++
    " LastGC:" ++ toString m.LastGC ++
    " PauseTotalNs:" ++ toString m.PauseTotalNs ++
    " PauseNs:[" ++ String.intercalate " " (m.PauseNs.map toString) ++
    "] NumGC:" ++ toString m.NumGC ++ "\x7d"

/-- Model of `DataSegment.String()`.  The segment end address wraps like Go
`uint64` addition. -/
def dataSegmentString (d : DataSegment) : String :=
  "DataSegment @ 0x" ++ natHex d.Address ++ "-0x" ++
    natHex ((d.Address + d.Contents.length) % u64Mod) ++ " with " ++
    toString d.Fields.length ++ " pointers"

/-- Model of `BssSegment.String()`. -/
def bssSegmentString (b : BssSegment) : String :=
  "BssSegment @ 0x" ++ natHex b.Address ++ "-0x" ++
    natHex ((b.Address + b.Contents.length) % u64Mod) ++ " with " ++
    toString b.Fields.length ++ " pointers"

/-- Go `%+v` of a profile stack frame. -/
def profFrameString (f : ProfFrame) : String :=
  "\x7bName:" ++ f.Name ++ " Filename:" ++ f.Filename ++
    " Line:" ++ toString f.Line ++ "\x7d"

/-- Model of `AllocFreeProfileRecord.String()` (Go `%+v`). -/
def allocFreeProfileRecordString (a : AllocFreeProfileRecord) : String :=
  "AllocFreeProfileRecord: \x7bId:" ++ toString a.Id ++
    " Size:" ++ toString a.Size ++
    " Frames:[" ++ String.intercalate " " (a.Frames.map profFrameString) ++
    "] AllocationCount:" ++ toString a.AllocationCount ++
    " FreeCount:" ++ toString a.FreeCount ++ "\x7d"

/-- Model of `AllocStackTraceSample.String()` (Go `%+v`). -/
def allocStackTraceSampleString (a : AllocStackTraceSample) : String :=
  "AllocStackTraceSample: \x7bAddress:" ++ toString a.Address ++
    " AllocFreeProfileRecordId:" ++ toString a.AllocFreeProfileRecordId ++ "\x7d"

/-- The `fmt.Stringer` capability of a record.  `DeferRecord` and
`PanicRecord` have no `String()` method in the source, so the checked
type assertion `r.(fmt.Stringer)` yields nil for them and calling
`String()` panics; that is modelled by `none`. -/
def recordString : Record → Option String
  | .eof => some "End Of File"
  | .object o => some (objectString o)
  | .otherRoot r => some (otherRootString r)
  | .typeDescriptor t => some (typeDescriptorString t)
  | .goroutine g => some (goroutineString g)
  | .stackFrame s => some (stackFrameString s)
  | .dumpParams p => some (dumpParamsString p)
  | .registeredFinalizer f => some (registeredFinalizerString f)
  | .itab i => some (itabString i)
  | .osThread t => some (osThreadString t)
  | .memStats m => some (memStatsString m)
  | .queuedFinalizer f => some (queuedFinalizerString f)
  | .dataSegment d => some (dataSegmentString d)
  | .bssSegment b => some (bssSegmentString b)
  | .deferRecord _ => none
  | .panicRecord _ => none
  | .allocFreeProfileRecord a => some (allocFreeProfileRecordString a)
  | .allocStackTraceSample a => some (allocStackTraceSampleString a)

/-! ## Pointer extractor (`GetPointerInfo` and friends) -/

/-- Decode a fixed-width unsigned integer from a run of bytes in the
given byte order (`binary.BigEndian` / `binary.LittleEndian`). -/
def decodeFixed (bigEndian : Bool) (bs : List Nat) : Nat :=
  if bigEndian then bs.foldl (fun a b => a * 256 + b) 0
  else bs.reverse.foldl (fun a b => a * 256 + b) 0

/-- Go panic message for a nil pointer dereference (reading
`p.BigEndian` when `p` is nil). -/
def nilDerefMsg : String :=
  "runtime error: invalid memory address or nil pointer dereference"

/-- Go panic message for `contents[offset:]` with offset beyond the
buffer, and for a fixed-width read past the end of the slice. -/
def outOfRangeMsg : String := "runtime error: index out of range"

/-- The per-size panic message raised by `GetPointerInfo`. -/
def badSizeMsg (n : Nat) : String :=
  "Cannot handle pointers of size " ++ toString n

/-- Model of `byteOrder.UintN(contents[f:])`: Go first slices (panicking when
`f > len(contents)`) and then reads `size` bytes (panicking when fewer
remain). -/
def readUintAt (bigEndian : Bool) (contents : List Nat) (f size : Nat) :
    Except String Nat :=
  if f > contents.length then .error outOfRangeMsg
  else if contents.length - f < size then .error outOfRangeMsg
  else .ok (decodeFixed bigEndian ((contents.drop f).take size))

/-- Result of the pointer extractor: the two parallel sequences, or a
panic. -/
inductive PRes where
  | pok : List Nat → List Nat → PRes
  | perr : String → PRes
deriving DecidableEq

/-- The field loop of `GetPointerInfo`: for each offset the source is
`owner.address + offset` (uint64 wrap) and the target is the
fixed-width read, with the pointer-size switch panicking on any size
other than 2, 4, 8. -/
def ptrFields (p : DumpParams) (addr : Nat) (contents : List Nat) :
    List Nat → PRes
  | [] => .pok [] []
  | f :: fs =>
    let src := (addr + f) % u64Mod
    let tgtE : Except String Nat :=
      match p.PointerSize with
      | 2 => readUintAt p.BigEndian contents f 2
      | 4 => readUintAt p.BigEndian contents f 4
      | 8 => readUintAt p.BigEndian contents f 8
      | n => .error (badSizeMsg n)
    match tgtE with
    | .error m => .perr m
    | .ok tgt =>
      match ptrFields p addr contents fs with
      | .pok ss ts => .pok (src :: ss) (tgt :: ts)
      | .perr m => .perr m

/-- Model of `GetPointerInfo(o, p)`.  The byte order is read from `p` before the
field loop, so a nil `p` panics even for an empty field list. -/
def GetPointerInfo (p : Option DumpParams) (o : OwnerView) : PRes :=
  match p with
  | none => .perr nilDerefMsg
  | some p => ptrFields p o.Address o.Contents o.Fields

/-- Model of `GetPointers(o, p)`: just the target sequence. -/
def GetPointers (p : Option DumpParams) (o : OwnerView) :
    Except String (List Nat) :=
  match GetPointerInfo p o with
  | .pok _ ts => .ok ts
  | .perr m => .error m

/-! ## Index builder (`TreeClimber.build`, `addOwner`) -/

/-- The indices built by one pass over the record stream.  `memory` and
`finalizers` are association lists with prepend-insert (later record
wins on lookup); `owners` is the reverse-ownership multimap. -/
structure BuildState where
  params : Option DumpParams
  memory : List (Nat × Record)
  owners : Nat → List Record
  finalizers : List (Nat × Record)

/-- The empty state at the start of `build`. -/
def emptyState : BuildState :=
  { params := none, memory := [], owners := fun _ => [], finalizers := [] }

/-- Result of the build: success, a returned error, or a panic. -/
inductive BRes where
  | bok : BuildState → BRes
  | berr : String → BRes
  | panicked : String → BRes

/-- Model of `TreeClimber.addOwner`: append the owning record to the list at the
target address (creating the entry if absent). -/
def addOwner (address : Nat) (r : Record) (ow : Nat → List Record) :
    Nat → List Record :=
  fun x => if x = address then ow address ++ [r] else ow x

/-- The non-zero-target filter loop of `build`: for each extracted
pointer value, skip zero and otherwise `addOwner`. -/
def addTargets (tgts : List Nat) (r : Record) (ow : Nat → List Record) :
    Nat → List Record :=
  tgts.foldl (fun acc t => if t ≠ 0 then addOwner t r acc else acc) ow

/-- The stateful part of one build-loop iteration that cannot fail:
capture `DumpParams`, record finalizers (either variety), and insert
addressable records into `memory`. -/
def stepState (s : BuildState) (r : Record) : BuildState :=
  let s1 : BuildState :=
    match r with
    | .dumpParams p => { s with params := some p }
    | .queuedFinalizer f =>
        { s with finalizers := (f.ObjectAddress, r) :: s.finalizers }
    | .registeredFinalizer f =>
        { s with finalizers := (f.ObjectAddress, r) :: s.finalizers }
    | _ => s
  match r.getAddress? with
  | some a => { s1 with memory := (a, r) :: s1.memory }
  | none => s1

/-- One iteration of the build loop for a non-EndOfFile record: the
state updates above, then for an Owner record the pointer extraction
into `owners` with the currently known DumpParams (panicking exactly as
`GetPointerInfo` does). -/
def recStep (s : BuildState) (r : Record) : BRes :=
  let s2 := stepState s r
  match r.asOwner? with
  | none => .bok s2
  | some ov =>
    match GetPointerInfo s2.params ov with
    | .perr m => .panicked m
    | .pok _ tgts => .bok { s2 with owners := addTargets tgts r s2.owners }

/-- The read loop of `build`: process records until `EndOfFile`;
running out of records models `ReadRecord` failing at end of input. -/
def buildLoop (s : BuildState) : List Record → BRes
  | [] => .berr "EOF"
  | r :: rs =>
    if r = .eof then .bok s
    else
      match recStep s r with
      | .bok s1 => buildLoop s1 rs
      | e => e

/-- Model of `build` over a decoded record stream, from the empty indices. -/
def buildRecords (rs : List Record) : BRes := buildLoop emptyState rs

/-- Fold `recStep` over a record list (used to talk about the state in
the middle of a build). -/
def foldRecs (s : BuildState) : List Record → Option BuildState
  | [] => some s
  | r :: rs =>
    match recStep s r with
    | .bok s1 => foldRecs s1 rs
    | _ => none

/-- How one record updates the captured DumpParams singleton. -/
def paramsUpd (x : Record) (p : Option DumpParams) : Option DumpParams :=
  match x with
  | .dumpParams q => some q
  | _ => p

/-- The `DumpParams` singleton in effect after a list of records has
been processed, starting from `p0`. -/
def paramsAfter (p0 : Option DumpParams) (xs : List Record) :
    Option DumpParams :=
  xs.foldl (fun p x => paramsUpd x p) p0

/-! ## OID registry (`names.go`): `AddOid`, `ReadOids`, and the
`Object.Read` post-processing -/

/-- Value of one decimal digit character. -/
def digitVal (c : Char) : Option Nat :=
  if c.isDigit then some (c.toNat - 48) else none

/-- Value of one hexadecimal digit character. -/
def hexDigitVal (c : Char) : Option Nat :=
  if c.isDigit then some (c.toNat - 48)
  else if 97 ≤ c.toNat ∧ c.toNat ≤ 102 then some (c.toNat - 87)
  else if 65 ≤ c.toNat ∧ c.toNat ≤ 70 then some (c.toNat - 55)
  else none

/-- Accumulate digits in a base; `none` when empty or a character is
not a digit of the base. -/
def parseDigits (dv : Char → Option Nat) (base : Nat) :
    List Char → Option Nat → Option Nat
  | [], acc => acc
  | c :: cs, acc =>
    match dv c, acc with
    | some d, some a => parseDigits dv base cs (some (a * base + d))
    | some d, none => parseDigits dv base cs (some d)
    | none, _ => none

/-- The `fmt` package unsigned-integer grammar for a `%v` operand:
decimal digits, or `0x`/`0X` followed by hex digits (model of the
standard library scanner used by `Fscanln` on a `*uint64`). -/
def parseGoUint (s : String) : Option Nat :=
  match s.data with
  | '0' :: 'x' :: cs => parseDigits hexDigitVal 16 cs none
  | '0' :: 'X' :: cs => parseDigits hexDigitVal 16 cs none
  | cs => parseDigits digitVal 10 cs none

/-- Whether a character separates tokens on an input line. -/
def isSpaceChar (c : Char) : Bool := c = ' ' ∨ c = '\t'

/-- Split a character stream into whitespace-separated tokens
(`acc` holds the current token, reversed). -/
def tokenizeAux : List Char → List Char → List String
  | [], [] => []
  | [], acc => [String.mk acc.reverse]
  | c :: cs, acc =>
    if isSpaceChar c then
      match acc with
      | [] => tokenizeAux cs []
      | _ => String.mk acc.reverse :: tokenizeAux cs []
    else tokenizeAux cs (c :: acc)

/-- Whitespace-separated tokens of one input line. -/
def lineTokens (line : String) : List String :=
  tokenizeAux line.data []

/-- Errors `fmt.Fscanln` can return before end of input. -/
inductive ScanErr where
  | unexpectedNewline : ScanErr
  | badSyntax : ScanErr
  | expectedNewline : ScanErr
deriving DecidableEq

/-- Result of one `fmt.Fscanln(r, &oid, &name)` call on one input
line. -/
inductive ScanResult where
  | ok : Nat → String → ScanResult
  | err : ScanErr → ScanResult
deriving DecidableEq

/-- Model of `fmt.Fscanln(r, &oid, &name)` on one line: a blank line stops at
the newline before the first operand ("unexpected newline"); a
non-integer first token is a bad-scan error; a single-token line stops at
the newline before the second operand; extra tokens after the two
operands are an "expected newline" error.  Only a two-token line with
an integer first token scans cleanly. -/
def fscanlnOidName (line : String) : ScanResult :=
  match lineTokens line with
  | [] => .err .unexpectedNewline
  | [t] =>
    match parseGoUint t with
    | none => .err .badSyntax
    | some _ => .err .unexpectedNewline
  | [t1, t2] =>
    match parseGoUint t1 with
    | none => .err .badSyntax
    | some v => .ok v t2
  | t1 :: _ :: _ :: _ =>
    match parseGoUint t1 with
    | none => .err .badSyntax
    | some _ => .err .expectedNewline

/-- Model of `ReadOids`: scan `<oid> <name>` lines into the OID map.  End of
input breaks the loop with a nil error; any other scan error is
returned immediately; a cleanly scanned pair is kept when the OID is
positive and the name non-empty. -/
def ReadOids (lines : List String) (oidMap : List (Nat × String)) :
    List (Nat × String) × Option ScanErr :=
  match lines with
  | [] => (oidMap, none)
  | line :: rest =>
    match fscanlnOidName line with
    | .err e => (oidMap, some e)
    | .ok oid name =>
      let oidMap :=
        if oid > 0 ∧ name.length > 0 then (oid, name) :: oidMap else oidMap
      ReadOids rest oidMap

/-- The tail of `Object.Read`: when the contents are longer than 8
bytes, the first 8 bytes are read as a little-endian uint64; a
registered OID sets the name of the object and registers the address in the
symbol table (`AddName`).  Returns the updated object and name map. -/
def objectAssignName (oidMap : List (Nat × String)) (o : Object)
    (nameMap : List (Nat × String)) : Object × List (Nat × String) :=
  if o.Contents.length > 8 then
    let oid := decodeFixed false (o.Contents.take 8)
    match lookupA oidMap oid with
    | some className =>
        ({ o with Name := className }, (o.Address, className) :: nameMap)
    | none => (o, nameMap)
  else (o, nameMap)

/-! ## Traversal engine (`printOwners`, `printAnchors`) -/

/-- Result of a fuel-bounded traversal: a value, a Go panic, or fuel
exhaustion (the modelled recursion did not finish within the budget). -/
inductive Res (α : Type) where
  | ok : α → Res α
  | panicked : String → Res α
  | fuelOut : Res α
deriving DecidableEq

/-- The "record not found" error text (typo preserved from the
source). -/
def notFoundMsg (address : Nat) : String :=
  "Cound not find record for address 0x" ++ natHex address

/-- The `printAnchors` loop-detection error text. -/
def loopMsg (address : Nat) : String :=
  "Loop: already visited address 0x" ++ natHex address

/-- Go panic message for asserting a nil `Record` to
`*heapdump.StackFrame` (map miss followed by unchecked assertion). -/
def ifaceNilMsg : String :=
  "interface conversion: heapdump.Record is nil, not *heapdump.StackFrame"

/-- Go panic message for asserting a non-StackFrame record to
`*heapdump.StackFrame`. -/
def ifaceConvMsg (r : Record) : String :=
  "interface conversion: heapdump.Record is " ++ r.typeName ++
    ", not *heapdump.StackFrame"

/-- The ChildPointer walk inside the StackFrame case of `printAnchors`.
The source asserts `childRecord.(*heapdump.StackFrame)` *before*
checking the `found` flag, so a pointer that misses the memory index
panics (the `if !found` error return is unreachable), as does a
non-StackFrame record; a 0 pointer ends the walk.  There is no visited
set here, so a ChildPointer cycle never terminates (no fuel
suffices). -/
def childWalkStep (mem : List (Nat × Record))
    (rec : Nat → Res (List String)) (ptr : Nat) : Res (List String) :=
  if ptr = 0 then .ok []
  else
    match lookupA mem ptr with
    | none => .panicked ifaceNilMsg
    | some (.stackFrame child) =>
      match rec child.ChildPointer with
      | .ok rest => .ok (("  " ++ stackFrameString child) :: rest)
      | .panicked m => .panicked m
      | .fuelOut => .fuelOut
    | some r => .panicked (ifaceConvMsg r)

/-- The fuel-indexed ChildPointer walk (one `childWalkStep` per unit of
fuel). -/
def childWalkF (mem : List (Nat × Record)) : Nat → Nat → Res (List String)
  | 0, _ => .fuelOut
  | n + 1, ptr => childWalkStep mem (childWalkF mem n) ptr

mutual

/-- Model of `printOwners(address, depth, indent)`: depth 0 and already
visited return silently; a missing record is a returned error; the
display line of the record is printed and each addressable owner is visited
at `depth - 1` with the indent grown by two spaces.  The result carries
the visited set threaded through siblings, the printed lines, and the
returned error value. -/
def printOwnersF (mem : List (Nat × Record)) (ow : Nat → List Record) :
    Nat → List Nat → Nat → Int → String →
    Res (List Nat × List String × Option String)
  | 0, _, _, _, _ => .fuelOut
  | n + 1, visited, address, depth, indent =>
    if depth = 0 then .ok (visited, [], none)
    else if address ∈ visited then .ok (visited, [], none)
    else
      let visited := address :: visited
      match lookupA mem address with
      | none => .ok (visited, [], some (notFoundMsg address))
      | some r =>
        match recordString r with
        | none => .panicked nilDerefMsg
        | some str =>
          match printOwnersList mem ow n (ow address) visited (depth - 1)
              indent with
          | .ok (v1, outs) => .ok (v1, (indent ++ str) :: outs, none)
          | .panicked m => .panicked m
          | .fuelOut => .fuelOut

/-- The owner loop of `printOwners`: recurse into each addressable
owner; an error from the recursive call is printed at the current
indent plus two spaces and the loop continues with the remaining
owners. -/
def printOwnersList (mem : List (Nat × Record)) (ow : Nat → List Record) :
    Nat → List Record → List Nat → Int → String →
    Res (List Nat × List String)
  | 0, _, _, _, _ => .fuelOut
  | _ + 1, [], visited, _, _ => .ok (visited, [])
  | n + 1, r :: rs, visited, depth, indent =>
    match r.getAddress? with
    | none => printOwnersList mem ow n rs visited depth indent
    | some b =>
      match printOwnersF mem ow n visited b depth (indent ++ "  ") with
      | .ok (v1, out, e) =>
        let out :=
          match e with
          | some msg => out ++ [indent ++ "  " ++ msg]
          | none => out
        match printOwnersList mem ow n rs v1 depth indent with
        | .ok (v2, outs) => .ok (v2, out ++ outs)
        | .panicked m => .panicked m
        | .fuelOut => .fuelOut
      | .panicked m => .panicked m
      | .fuelOut => .fuelOut

end

/-- The root-variant switch of `printAnchors`: OtherRoot, BssSegment
and DataSegment print their display line; a StackFrame prints its line
followed by the ChildPointer walk; any other record prints nothing. -/
def rootLinesF (mem : List (Nat × Record)) (n : Nat) :
    Record → Res (List String)
  | .otherRoot o => .ok [otherRootString o]
  | .stackFrame sf =>
    match childWalkF mem n sf.ChildPointer with
    | .ok ls => .ok (stackFrameString sf :: ls)
    | .panicked m => .panicked m
    | .fuelOut => .fuelOut
  | .bssSegment b => .ok [bssSegmentString b]
  | .dataSegment d => .ok [dataSegmentString d]
  | _ => .ok []

mutual

/-- Model of `printAnchors(address)`: an already-visited address is a returned
"Loop" error, a missing record a returned "not found" error; a
root-variant record prints its line (a StackFrame also walks its
ChildPointer chain); then every addressable owner is visited,
whether or not the record was a root. -/
def printAnchorsF (mem : List (Nat × Record)) (ow : Nat → List Record) :
    Nat → List Nat → Nat →
    Res (List Nat × List String × Option String)
  | 0, _, _ => .fuelOut
  | n + 1, visited, address =>
    if address ∈ visited then .ok (visited, [], some (loopMsg address))
    else
      let visited := address :: visited
      match lookupA mem address with
      | none => .ok (visited, [], some (notFoundMsg address))
      | some r =>
        match rootLinesF mem n r with
        | .panicked m => .panicked m
        | .fuelOut => .fuelOut
        | .ok rootLines =>
          match printAnchorsList mem ow n (ow address) visited with
          | .ok (v1, outs) => .ok (v1, rootLines ++ outs, none)
          | .panicked m => .panicked m
          | .fuelOut => .fuelOut

/-- The owner loop of `printAnchors`: the source calls
`c.printAnchors(a.GetAddress())` and discards the returned error, so a
failing branch contributes no output and no error; the loop always
continues with the remaining owners. -/
def printAnchorsList (mem : List (Nat × Record)) (ow : Nat → List Record) :
    Nat → List Record → List Nat → Res (List Nat × List String)
  | 0, _, _ => .fuelOut
  | _ + 1, [], visited => .ok (visited, [])
  | n + 1, r :: rs, visited =>
    match r.getAddress? with
    | none => printAnchorsList mem ow n rs visited
    | some b =>
      match printAnchorsF mem ow n visited b with
      | .ok (v1, out, _) =>
        match printAnchorsList mem ow n rs v1 with
        | .ok (v2, outs) => .ok (v2, out ++ outs)
        | .panicked m => .panicked m
        | .fuelOut => .fuelOut
      | .panicked m => .panicked m
      | .fuelOut => .fuelOut

end

/-! ## Hex formatter and query façade -/

/-- Two-digit lowercase hex of one byte. -/
def hexByte (b : Nat) : String :=
  (if b < 16 then "0" else "") ++ natHex b

/-- Eight-digit lowercase hex (zero padded) of an offset. -/
def hexOffset (n : Nat) : String :=
  let s := natHex n
  String.mk (List.replicate (8 - s.length) '0') ++ s

/-- Printable byte, or a dot, for the gutter of a hexdump line. -/
def asciiChar (b : Nat) : Char :=
  if 32 ≤ b ∧ b ≤ 126 then Char.ofNat b else '.'

/-- One 16-byte line of `hex.Dump`. -/
def hexDumpLine (off : Nat) (bs : List Nat) : String :=
  let cell : Option Nat → String
    | some b => hexByte b ++ " "
    | none => "   "
  hexOffset off ++ "  " ++
    String.join ((List.range 8).map (fun i => cell bs[i]?)) ++ " " ++
    String.join ((List.range 8).map (fun i => cell bs[i + 8]?)) ++ " |" ++
    String.mk (bs.map asciiChar) ++ "|\n"

/-- Model of `hex.Dump`: canonical 16-bytes-per-line hexdump (empty input gives
the empty string). -/
def hexDumpAux (off : Nat) : List Nat → String
  | [] => ""
  | b :: rest =>
    hexDumpLine off ((b :: rest).take 16) ++
      hexDumpAux (off + 16) ((b :: rest).drop 16)
termination_by bs => bs.length
decreasing_by simp [List.length_drop]; omega

/-- Model of `hex.Dump` from offset 0. -/
def hexDump (bs : List Nat) : String := hexDumpAux 0 bs

/-- The analyzer instance: the immutable indices plus the transient
`visited` field (nil between queries). -/
structure TreeClimber where
  params : Option DumpParams
  memory : List (Nat × Record)
  owners : Nat → List Record
  visited : Option (List Nat)
  finalizers : List (Nat × Record)

/-- Model of `TreeClimber.PrintOwners`: allocate a fresh visited set, bump a
positive depth by one (so the query prints the start node plus `depth`
owner levels; negative means unbounded), run the recursion, and release
the visited set on every exit path (the deferred nil assignment). -/
def PrintOwnersQ (c : TreeClimber) (fuel : Nat) (address : Nat)
    (depth : Int) : Res (List String × Option String) × TreeClimber :=
  let depth := if depth > 0 then depth + 1 else depth
  let r :=
    match printOwnersF c.memory c.owners fuel [] address depth "" with
    | .ok (_, outs, e) => Res.ok (outs, e)
    | .panicked m => Res.panicked m
    | .fuelOut => Res.fuelOut
  (r, { c with visited := none })

/-- Model of `TreeClimber.PrintAnchors`: fresh visited set, run, release. -/
def PrintAnchorsQ (c : TreeClimber) (fuel : Nat) (address : Nat) :
    Res (List String × Option String) × TreeClimber :=
  let r :=
    match printAnchorsF c.memory c.owners fuel [] address with
    | .ok (_, outs, e) => Res.ok (outs, e)
    | .panicked m => Res.panicked m
    | .fuelOut => Res.fuelOut
  (r, { c with visited := none })

/-- Model of `TreeClimber.Hexdump`: look up the record, require the Owner
capability, and return the hexdump of the contents followed by one
"Pointer:" line per field offset.  Does not touch `visited`. -/
def HexdumpQ (c : TreeClimber) (address : Nat) : Except String String :=
  match lookupA c.memory address with
  | none => .error (notFoundMsg address)
  | some r =>
    match r.asOwner? with
    | none =>
      .error ("Object of type " ++ r.typeName ++ " does not have Contents")
    | some o =>
      .ok (hexDump o.Contents ++
        String.join (o.Fields.map (fun f => "Pointer: 0x" ++ natHex f ++ "\n")))

/-! ## Projections used to state build results -/

/-- Whether a build result is a success. -/
def BRes.isBok : BRes → Bool
  | .bok _ => true
  | _ => false

/-- The memory index of a build result (empty on failure). -/
def BRes.memoryOf : BRes → List (Nat × Record)
  | .bok s => s.memory
  | _ => []

/-! ## Claim C1 -/

/-- A concrete `OtherRoot` record. -/
def c1OtherRoot : OtherRoot := ⟨"test root", 5⟩

/-- C1 counterexample: a successful build of a dump holding one
OtherRoot record puts that OtherRoot into the `memory` index at its
Address — `*OtherRoot` has a `GetAddress` method, so it satisfies the
`Addressable` interface and step 3 of the build inserts it.  This
refutes "memory[a] is never an OtherRoot record after a successful
build". -/
theorem c1_counterexample :
    (buildRecords [.otherRoot c1OtherRoot, .eof]).isBok = true ∧
    lookupA (buildRecords [.otherRoot c1OtherRoot, .eof]).memoryOf 5 =
      some (.otherRoot c1OtherRoot) := by
  exact ⟨rfl, rfl⟩

/-- C1 amended: every decoded OtherRoot record IS inserted into the
`memory` index at its Address when the build processes it (it is
Addressable by virtue of its `GetAddress` method). -/
theorem c1_amended (s : BuildState) (o : OtherRoot) :
    ∃ s1, recStep s (.otherRoot o) = .bok s1 ∧
      lookupA s1.memory o.Address = some (.otherRoot o) := by
  refine ⟨_, rfl, ?_⟩
  simp [lookupA]

/-! ## Claim C2 -/

/-- An Object whose contents are exactly 8 bytes, spelling OID 1 in
little-endian. -/
def c2Obj8 : Object := ⟨9, [1, 0, 0, 0, 0, 0, 0, 0], [], ""⟩

/-- An Object whose contents are 9 bytes, starting with OID 1 in
little-endian. -/
def c2Obj9 : Object := ⟨9, [1, 0, 0, 0, 0, 0, 0, 0, 7], [], ""⟩

/-- C2 counterexample: with OID 1 registered and contents of exactly 8
bytes equal to that OID, `Object.Read` post-processing does nothing —
the source guard is `len(r.Contents) > 8`, strictly greater — so the
claimed "at least 8 bytes, in particular exactly 8 bytes" is false:
the name stays empty and nothing is added to the symbol table. -/
theorem c2_counterexample :
    c2Obj8.Contents.length = 8 ∧
    lookupA [(1, "Foo")] (decodeFixed false (c2Obj8.Contents.take 8)) =
      some "Foo" ∧
    objectAssignName [(1, "Foo")] c2Obj8 [] = (c2Obj8, []) := by
  exact ⟨rfl, rfl, rfl⟩

/-- C2 amended: for an Object whose contents are strictly longer than
8 bytes, the first 8 bytes are read as a little-endian uint64
(independent of DumpParams, which the post-processing never consults),
and a registered OID sets the display name and records the address in
the symbol table under that name. -/
theorem c2_amended (oidMap nameMap : List (Nat × String))
    (o : Object) (nm : String)
    (hlen : o.Contents.length > 8)
    (hoid : lookupA oidMap (decodeFixed false (o.Contents.take 8)) = some nm) :
    objectAssignName oidMap o nameMap =
      ({ o with Name := nm }, (o.Address, nm) :: nameMap) := by
  simp [objectAssignName, hlen, hoid]

/-- C2 amended, witnessed at the 9-byte object. -/
theorem c2_witness :
    c2Obj9.Contents.length > 8 ∧
    objectAssignName [(1, "Foo")] c2Obj9 [] =
      ({ c2Obj9 with Name := "Foo" }, [(9, "Foo")]) :=
  ⟨by decide, c2_amended [(1, "Foo")] [] c2Obj9 "Foo" (by decide)
    (by decide)⟩

/-! ## Claim C3 -/

/-- A stack frame whose ChildPointer (512) has no record in memory. -/
def c3Frame : StackFrame := ⟨256, 0, 512, [], 0, 0, 0, "main.f", []⟩

/-- A memory index holding only that frame. -/
def c3Mem : List (Nat × Record) := [(256, .stackFrame c3Frame)]

/-- C3: the ChildPointer walk of `printAnchors` type-asserts
`childRecord.(*heapdump.StackFrame)` *before* testing the map-lookup
`found` flag, so a ChildPointer whose address has no record panics with
an interface-conversion error instead of ending the walk with the
(unreachable) "Cound not find stack frame" error; a ChildPointer of 0
does end the walk cleanly. -/
theorem c3_missing_child_panics :
    childWalkF c3Mem 5 512 = .panicked ifaceNilMsg ∧
    printAnchorsF c3Mem (fun _ => []) 10 [] 256 = .panicked ifaceNilMsg ∧
    childWalkF c3Mem 5 0 = .ok [] := by
  exact ⟨rfl, rfl, rfl⟩

/-! ## Claim C4 -/

/-- Whether one `Fscanln` call scanned cleanly. -/
def ScanResult.isOk : ScanResult → Bool
  | .ok _ _ => true
  | .err _ => false

/-- C4 counterexample: a blank line makes `ReadOids` return the
"unexpected newline" scan error and stop, losing the well-formed
entry after it — refuting "blank and malformed lines are skipped
silently" and "for every input stream, it returns without error". -/
theorem c4_counterexample :
    ReadOids ["1 foo", "", "2 bar"] [] =
      ([(1, "foo")], some .unexpectedNewline) ∧
    (ReadOids ["1 foo", "junk x", "2 bar"] []).2 = some .badSyntax := by
  exact ⟨by decide, by decide⟩

/-- C4 amended: `ReadOids` returns without error exactly when every
line scans cleanly as `<oid> <name>`; the first blank or malformed line
makes it return the scan error of that line (stopping before end of input);
and every retained entry either was already in the map or comes from a
line that scanned cleanly with a positive OID and a non-empty name (a
clean line with OID 0 is skipped silently). -/
theorem c4_amended (lines : List String) (m : List (Nat × String)) :
    ((ReadOids lines m).2 = none ↔
      ∀ l ∈ lines, (fscanlnOidName l).isOk = true) ∧
    (∀ e ∈ (ReadOids lines m).1,
      e ∈ m ∨ ∃ l ∈ lines, fscanlnOidName l = .ok e.1 e.2 ∧
        e.1 > 0 ∧ e.2.length > 0) := by
  induction lines generalizing m with
  | nil => simp [ReadOids]
  | cons line rest ih =>
    cases hs : fscanlnOidName line with
    | err e =>
      have hR : ReadOids (line :: rest) m = (m, some e) := by
        simp [ReadOids, hs]
      refine ⟨?_, ?_⟩
      · rw [hR]
        constructor
        · intro h
          exact absurd h (by simp)
        · intro h
          exfalso
          have h2 := h line (List.mem_cons_self line rest)
          rw [hs] at h2
          exact absurd h2 (by simp [ScanResult.isOk])
      · intro x hx
        rw [hR] at hx
        exact Or.inl hx
    | ok oid name =>
      have hok : (fscanlnOidName line).isOk = true := by
        rw [hs]; rfl
      by_cases hkeep : oid > 0 ∧ name.length > 0
      · have hR : ReadOids (line :: rest) m = ReadOids rest ((oid, name) :: m) := by
          simp [ReadOids, hs, hkeep]
        refine ⟨?_, ?_⟩
        · rw [hR, (ih ((oid, name) :: m)).1]
          constructor
          · intro h l hl
            rcases List.mem_cons.mp hl with rfl | hl2
            · exact hok
            · exact h l hl2
          · intro h l hl
            exact h l (List.mem_cons_of_mem _ hl)
        · intro x hx
          rw [hR] at hx
          rcases (ih ((oid, name) :: m)).2 x hx with hx1 | ⟨l, hl, he⟩
          · rcases List.mem_cons.mp hx1 with rfl | hx2
            · exact Or.inr ⟨line, List.mem_cons_self line rest, by
                simpa [hs] using hkeep⟩
            · exact Or.inl hx2
          · exact Or.inr ⟨l, List.mem_cons_of_mem _ hl, he⟩
      · have hR : ReadOids (line :: rest) m = ReadOids rest m := by
          simp [ReadOids, hs, hkeep]
        refine ⟨?_, ?_⟩
        · rw [hR, (ih m).1]
          constructor
          · intro h l hl
            rcases List.mem_cons.mp hl with rfl | hl2
            · exact hok
            · exact h l hl2
          · intro h l hl
            exact h l (List.mem_cons_of_mem _ hl)
        · intro x hx
          rw [hR] at hx
          rcases (ih m).2 x hx with hx1 | ⟨l, hl, he⟩
          · exact Or.inl hx1
          · exact Or.inr ⟨l, List.mem_cons_of_mem _ hl, he⟩

/-- C4 amended, witnessed on a concrete stream: all-clean input yields
a nil error, and the retained entry (16, "foo") comes from the line
"0x10 foo". -/
theorem c4_witness :
    (ReadOids ["0x10 foo"] []).2 = none ∧
    ((16, "foo") ∈ (ReadOids ["0x10 foo"] []).1 →
      ((16, "foo") : Nat × String) ∈ ([] : List (Nat × String)) ∨
      ∃ l ∈ ["0x10 foo"], fscanlnOidName l = .ok 16 "foo" ∧
        (16 : Nat) > 0 ∧ "foo".length > 0) :=
  ⟨((c4_amended ["0x10 foo"] []).1).2 (by decide),
    fun h => (c4_amended ["0x10 foo"] []).2 (16, "foo") h⟩

/-! ## Claim C5 -/

/-- A DumpParams with the unsupported pointer size 3. -/
def c5BadParams : DumpParams := ⟨false, 3, 0, 0, "", "", 0⟩

/-- C5 counterexample: with pointer size 3 — not 2, 4, or 8 — and an
empty field list, the extractor returns two empty sequences instead of
a hard error: the size check lives inside the per-field loop, so "for
any pointer size other than 2, 4, or 8 it is a hard error" is false
when the field list is empty. -/
theorem c5_counterexample :
    GetPointerInfo (some c5BadParams) ⟨0, [], []⟩ = .pok [] [] := by
  exact rfl

/-- The field loop succeeds and computes the parallel sequences
pointwise when the size is supported and every read is in bounds. -/
theorem ptrFields_ok (p : DumpParams) (addr : Nat) (contents : List Nat)
    (fs : List Nat)
    (hsz : p.PointerSize = 2 ∨ p.PointerSize = 4 ∨ p.PointerSize = 8)
    (hb : ∀ f ∈ fs, f + p.PointerSize ≤ contents.length) :
    ∃ ss ts, ptrFields p addr contents fs = .pok ss ts ∧
      ss.length = fs.length ∧ ts.length = fs.length ∧
      ∀ (i f : Nat), fs[i]? = some f →
        ss[i]? = some ((addr + f) % u64Mod) ∧
        ts[i]? = some (decodeFixed p.BigEndian
          ((contents.drop f).take p.PointerSize)) := by
  induction fs with
  | nil =>
    exact ⟨[], [], rfl, rfl, rfl, by intro i f h; simp at h⟩
  | cons f fs ih =>
    have hbf := hb f (List.mem_cons_self f fs)
    have hread : readUintAt p.BigEndian contents f p.PointerSize =
        .ok (decodeFixed p.BigEndian
          ((contents.drop f).take p.PointerSize)) := by
      have h1 : ¬ f > contents.length := by omega
      have h2 : ¬ contents.length - f < p.PointerSize := by omega
      simp [readUintAt, h1, h2]
    obtain ⟨ss, ts, hfs, hsl, htl, hpt⟩ :=
      ih (fun g hg => hb g (List.mem_cons_of_mem f hg))
    refine ⟨(addr + f) % u64Mod :: ss,
      decodeFixed p.BigEndian ((contents.drop f).take p.PointerSize) :: ts,
      ?_, by simp [hsl], by simp [htl], ?_⟩
    · rcases hsz with h | h | h <;>
        simp only [ptrFields, h] <;> rw [h] at hread <;>
        simp [hread, hfs]
    · intro i g hg
      match i with
      | 0 =>
        simp at hg
        subst hg
        simp
      | Nat.succ j =>
        simp only [List.getElem?_cons_succ] at hg ⊢
        exact hpt j g hg

/-- C5 amended: for pointer sizes 2, 4, 8 and in-bounds reads the
extractor returns two parallel sequences of the field-list length
with `source[i] = owner.address + f_i` (uint64 wrap) and `target[i]`
the fixed-width read at `f_i` in the DumpParams byte order; any other
pointer size is a hard error (panic) whenever the field list is
non-empty (with an empty field list the loop body never runs and two
empty sequences are returned). -/
theorem c5_amended (p : DumpParams) (o : OwnerView) :
    ((p.PointerSize = 2 ∨ p.PointerSize = 4 ∨ p.PointerSize = 8) →
     (∀ f ∈ o.Fields, f + p.PointerSize ≤ o.Contents.length) →
     ∃ ss ts, GetPointerInfo (some p) o = .pok ss ts ∧
       ss.length = o.Fields.length ∧ ts.length = o.Fields.length ∧
       ∀ (i f : Nat), o.Fields[i]? = some f →
         ss[i]? = some ((o.Address + f) % u64Mod) ∧
         ts[i]? = some (decodeFixed p.BigEndian
           ((o.Contents.drop f).take p.PointerSize))) ∧
    (¬(p.PointerSize = 2 ∨ p.PointerSize = 4 ∨ p.PointerSize = 8) →
     o.Fields ≠ [] →
     GetPointerInfo (some p) o = .perr (badSizeMsg p.PointerSize)) := by
  constructor
  · intro hsz hb
    exact ptrFields_ok p o.Address o.Contents o.Fields hsz hb
  · intro hsz hne
    match hf : o.Fields with
    | [] => exact absurd hf hne
    | f :: fs =>
      have hptr : ptrFields p o.Address o.Contents (f :: fs) =
          .perr (badSizeMsg p.PointerSize) := by
        obtain ⟨be, ps, h1, h2, ar, ge, nc⟩ := p
        simp only at hsz ⊢
        rcases ps with _ | _ | _ | _ | _ | _ | _ | _ | _ | ps
        · simp [ptrFields, badSizeMsg]
        · simp [ptrFields, badSizeMsg]
        · exact absurd (Or.inl rfl) hsz
        · simp [ptrFields, badSizeMsg]
        · exact absurd (Or.inr (Or.inl rfl)) hsz
        · simp [ptrFields, badSizeMsg]
        · simp [ptrFields, badSizeMsg]
        · simp [ptrFields, badSizeMsg]
        · exact absurd (Or.inr (Or.inr rfl)) hsz
        · simp [ptrFields, badSizeMsg]
      show ptrFields p o.Address o.Contents o.Fields = _
      rw [hf, hptr]

/-- C5 amended, witnessed: an 8-byte little-endian read at offset 0,
and the hard error at pointer size 3 with one field. -/
theorem c5_witness :
    (∃ ss ts,
      GetPointerInfo (some ⟨false, 8, 0, 0, "", "", 0⟩)
        ⟨8192, [0, 48, 0, 0, 0, 0, 0, 0], [0]⟩ = .pok ss ts ∧
      ss.length = 1 ∧ ts.length = 1 ∧
      ∀ (i f : Nat), ([0] : List Nat)[i]? = some f →
        ss[i]? = some ((8192 + f) % u64Mod) ∧
        ts[i]? = some (decodeFixed false
          (([0, 48, 0, 0, 0, 0, 0, 0].drop f).take 8))) ∧
    GetPointerInfo (some c5BadParams) ⟨0, [1, 2, 3], [0]⟩ =
      .perr (badSizeMsg 3) :=
  ⟨(c5_amended ⟨false, 8, 0, 0, "", "", 0⟩
      ⟨8192, [0, 48, 0, 0, 0, 0, 0, 0], [0]⟩).1 (by decide) (by decide),
   (c5_amended c5BadParams ⟨0, [1, 2, 3], [0]⟩).2 (by decide)
      (by decide)⟩

/-! ## Claim C7 -/

/-- C7 scenario: an Object at 10 owned by a record at the missing
address 20 and by a BssSegment at 30. -/
def c7Obj10 : Object := ⟨10, [], [], ""⟩

/-- The dangling owner record (its address 20 is not in memory). -/
def c7Obj20 : Object := ⟨20, [], [], ""⟩

/-- The root owner present in memory. -/
def c7Bss30 : BssSegment := ⟨30, [], []⟩

/-- Memory index for the C7 scenario (20 deliberately absent). -/
def c7Mem : List (Nat × Record) :=
  [(10, .object c7Obj10), (30, .bssSegment c7Bss30)]

/-- Owners index for the C7 scenario. -/
def c7Ow : Nat → List Record :=
  fun a => if a = 10 then [.object c7Obj20, .bssSegment c7Bss30] else []

/-- C7 counterexample: in `print_anchors` the error from the failing
branch at 20 is silently discarded: the query output holds only the
sibling BssSegment line — no error text anywhere — and the returned
error is nil, refuting "in both traversal queries … the error … is
printed to the current output … and … reported rather than silently
discarded" (the visited list [30, 20, 10] shows the failing branch was
entered and the traversal continued). -/
theorem c7_counterexample :
    lookupA c7Mem 20 = none ∧
    printAnchorsF c7Mem c7Ow 20 [] 10 =
      .ok ([30, 20, 10], ["BssSegment @ 0x1e-0x1e with 0 pointers"], none) := by
  exact ⟨rfl, by decide⟩

/-- C7 amended: when a recursive branch fails with a missing record,
`print_owners` prints the error at the current indent plus two spaces
and continues with the remaining sibling owners, while `print_anchors`
discards the branch error entirely (no output, no returned error)
and also continues with the remaining siblings. -/
theorem c7_amended (mem : List (Nat × Record))
    (ow : Nat → List Record) (n : Nat) (v v2 v3 : List Nat) (r : Record)
    (rs : List Record) (b : Nat) (depth : Int) (indent : String)
    (outs outs3 : List String)
    (hr : r.getAddress? = some b) (hv : b ∉ v) (hm : lookupA mem b = none)
    (hd : depth ≠ 0)
    (ho : printOwnersList mem ow (n + 1) rs (b :: v) depth indent =
      .ok (v2, outs))
    (ha : printAnchorsList mem ow (n + 1) rs (b :: v) = .ok (v3, outs3)) :
    printOwnersList mem ow (n + 2) (r :: rs) v depth indent =
      .ok (v2, (indent ++ "  " ++ notFoundMsg b) :: outs) ∧
    printAnchorsList mem ow (n + 2) (r :: rs) v = .ok (v3, outs3) := by
  constructor
  · simp [printOwnersList, hr, printOwnersF, hd, hv, hm, ho]
  · simp [printAnchorsList, hr, printAnchorsF, hv, hm, ha]

/-- C7 amended, witnessed on the concrete scenario. -/
theorem c7_witness :
    printOwnersList c7Mem c7Ow 6 [.object c7Obj20, .bssSegment c7Bss30]
      [10] (-2) "" =
      .ok ([30, 20, 10],
        ["  " ++ notFoundMsg 20,
         "  BssSegment @ 0x1e-0x1e with 0 pointers"]) ∧
    printAnchorsList c7Mem c7Ow 6 [.object c7Obj20, .bssSegment c7Bss30]
      [10] =
      .ok ([30, 20, 10], ["BssSegment @ 0x1e-0x1e with 0 pointers"]) := by
  have h := c7_amended c7Mem c7Ow 4 [10] [30, 20, 10] [30, 20, 10]
    (.object c7Obj20) [.bssSegment c7Bss30] 20 (-2) ""
    ["  BssSegment @ 0x1e-0x1e with 0 pointers"]
    ["BssSegment @ 0x1e-0x1e with 0 pointers"]
    (by decide) (by decide) (by decide) (by decide) (by decide) (by decide)
  constructor
  · have h1 := h.1
    rw [show ("" ++ "  " ++ notFoundMsg 20) = "  " ++ notFoundMsg 20 by
      simp] at h1
    exact h1
  · exact h.2

/-! ## Build lemmas (for claims C8 and C10) -/

/-- The record freshly appended by `addOwner` is present at its
address. -/
theorem addOwner_self (a : Nat) (r : Record) (ow : Nat → List Record) :
    r ∈ addOwner a r ow a := by
  simp [addOwner]

/-- Lemma: `addOwner` never removes a membership. -/
theorem addOwner_mono {x : Record} {t : Nat} (a : Nat) (r : Record)
    (ow : Nat → List Record) (h : x ∈ ow t) : x ∈ addOwner a r ow t := by
  by_cases ht : t = a
  · subst ht
    simp only [addOwner, if_pos rfl]
    exact List.mem_append_left _ h
  · simpa only [addOwner, if_neg ht] using h

/-- One fold step of `addTargets`. -/
theorem addTargets_cons (u : Nat) (us : List Nat) (r : Record)
    (ow : Nat → List Record) :
    addTargets (u :: us) r ow =
      addTargets us r (if u ≠ 0 then addOwner u r ow else ow) := by
  simp [addTargets]

/-- Lemma: `addTargets` never removes a membership. -/
theorem addTargets_mono {x : Record} {t : Nat} (tgts : List Nat)
    (r : Record) (ow : Nat → List Record) (h : x ∈ ow t) :
    x ∈ addTargets tgts r ow t := by
  induction tgts generalizing ow with
  | nil => exact h
  | cons u us ih =>
    rw [addTargets_cons]
    refine ih _ ?_
    by_cases hu : u ≠ 0
    · simpa only [if_pos hu] using addOwner_mono u r ow h
    · simpa only [if_neg hu] using h

/-- A non-zero target in the list receives the owning record. -/
theorem addTargets_self {t : Nat} (tgts : List Nat) (r : Record)
    (ow : Nat → List Record) (ht : t ∈ tgts) (h0 : t ≠ 0) :
    r ∈ addTargets tgts r ow t := by
  induction tgts generalizing ow with
  | nil => cases ht
  | cons u us ih =>
    rw [addTargets_cons]
    rcases List.mem_cons.mp ht with rfl | hmem
    · refine addTargets_mono us r _ ?_
      simpa only [if_pos h0] using addOwner_self t r ow
    · exact ih _ hmem

/-- Lemma: `addTargets` creates no entry at address 0 (zero targets are
filtered). -/
theorem addTargets_zero (tgts : List Nat) (r : Record)
    (ow : Nat → List Record) : addTargets tgts r ow 0 = ow 0 := by
  induction tgts generalizing ow with
  | nil => rfl
  | cons u us ih =>
    rw [addTargets_cons, ih]
    by_cases hu : u ≠ 0
    · simp only [if_pos hu, addOwner, if_neg (by omega : ¬(0 = u))]
    · simp only [if_neg hu]

/-- Lemma: `stepState` never touches the owners index. -/
theorem stepState_owners (s : BuildState) (r : Record) :
    (stepState s r).owners = s.owners := by
  cases r <;> rfl

/-- Lemma: `stepState` keeps the params unless the record is DumpParams. -/
theorem stepState_params_ne (s : BuildState) (r : Record)
    (h : ∀ q, r ≠ .dumpParams q) : (stepState s r).params = s.params := by
  cases r with
  | dumpParams q => exact absurd rfl (h q)
  | _ => rfl

/-- An Owner record is not a DumpParams record. -/
theorem asOwner_ne_dumpParams {r : Record} {ov : OwnerView}
    (h : r.asOwner? = some ov) : ∀ q, r ≠ .dumpParams q := by
  cases r <;> simp_all [Record.asOwner?]

/-- An Owner record is not the EndOfFile record. -/
theorem asOwner_ne_eof {r : Record} {ov : OwnerView}
    (h : r.asOwner? = some ov) : r ≠ .eof := by
  cases r <;> simp_all [Record.asOwner?]

/-- Lemma: `recStep` on a non-Owner record always succeeds with just the state
updates. -/
theorem recStep_notOwner (s : BuildState) (r : Record)
    (h : r.asOwner? = none) : recStep s r = .bok (stepState s r) := by
  simp [recStep, h]

/-- Lemma: `recStep` on an Owner record whose extraction succeeds appends the
record to `owners` at each non-zero target. -/
theorem recStep_owner_ok (s : BuildState) (r : Record) (ov : OwnerView)
    (ss ts : List Nat) (hov : r.asOwner? = some ov)
    (hg : GetPointerInfo s.params ov = .pok ss ts) :
    recStep s r =
      .bok { stepState s r with
              owners := addTargets ts r (stepState s r).owners } := by
  have hp : (stepState s r).params = s.params :=
    stepState_params_ne s r (asOwner_ne_dumpParams hov)
  simp [recStep, hov, hp, hg]

/-- Lemma: `recStep` on an Owner record whose extraction panics, panics. -/
theorem recStep_owner_panic (s : BuildState) (r : Record) (ov : OwnerView)
    (m : String) (hov : r.asOwner? = some ov)
    (hg : GetPointerInfo s.params ov = .perr m) :
    recStep s r = .panicked m := by
  have hp : (stepState s r).params = s.params :=
    stepState_params_ne s r (asOwner_ne_dumpParams hov)
  simp [recStep, hov, hp, hg]

/-- A successful `recStep` never removes an owners-index membership. -/
theorem recStep_owners_mono {s s1 : BuildState} {r : Record}
    (h : recStep s r = .bok s1) {x : Record} {t : Nat}
    (hx : x ∈ s.owners t) : x ∈ s1.owners t := by
  rcases hov : r.asOwner? with _ | ov
  · rw [recStep_notOwner s r hov] at h
    cases h
    rw [stepState_owners]
    exact hx
  · cases hg : GetPointerInfo s.params ov with
    | perr m =>
      rw [recStep_owner_panic s r ov _ hov hg] at h
      cases h
    | pok ss ts =>
      rw [recStep_owner_ok s r ov _ _ hov hg] at h
      cases h
      show x ∈ addTargets ts r (stepState s r).owners t
      rw [stepState_owners]
      exact addTargets_mono _ r _ hx

/-- A successful `recStep` leaves the empty owners entry at 0 empty. -/
theorem recStep_owners_zero {s s1 : BuildState} {r : Record}
    (h : recStep s r = .bok s1) (hz : s.owners 0 = []) :
    s1.owners 0 = [] := by
  rcases hov : r.asOwner? with _ | ov
  · rw [recStep_notOwner s r hov] at h
    cases h
    rw [stepState_owners]
    exact hz
  · cases hg : GetPointerInfo s.params ov with
    | perr m =>
      rw [recStep_owner_panic s r ov _ hov hg] at h
      cases h
    | pok ss ts =>
      rw [recStep_owner_ok s r ov _ _ hov hg] at h
      cases h
      show addTargets ts r (stepState s r).owners 0 = []
      rw [addTargets_zero, stepState_owners]
      exact hz

/-- A successful `recStep` updates the params singleton exactly when
the record is a DumpParams. -/
theorem recStep_params {s s1 : BuildState} {r : Record}
    (h : recStep s r = .bok s1) : s1.params = paramsUpd r s.params := by
  rcases hov : r.asOwner? with _ | ov
  · rw [recStep_notOwner s r hov] at h
    cases h
    cases r <;> rfl
  · cases hg : GetPointerInfo s.params ov with
    | perr m =>
      rw [recStep_owner_panic s r ov _ hov hg] at h
      cases h
    | pok ss ts =>
      rw [recStep_owner_ok s r ov _ _ hov hg] at h
      cases h
      have h1 := stepState_params_ne s r (asOwner_ne_dumpParams hov)
      have h2 : paramsUpd r s.params = s.params := by
        cases r <;> simp_all [Record.asOwner?, paramsUpd]
      show (stepState s r).params = paramsUpd r s.params
      rw [h2]
      exact h1

/-- Lemma: `buildLoop` never removes an owners-index membership. -/
theorem buildLoop_owners_mono {l : List Record} :
    ∀ {s s1 : BuildState}, buildLoop s l = .bok s1 →
      ∀ {x : Record} {t : Nat}, x ∈ s.owners t → x ∈ s1.owners t := by
  induction l with
  | nil =>
    intro s s1 h
    cases h
  | cons r rs ih =>
    intro s s1 h x t hx
    by_cases hr : r = .eof
    · rw [show buildLoop s (r :: rs) = .bok s by simp [buildLoop, hr]] at h
      cases h
      exact hx
    · simp only [buildLoop, if_neg hr] at h
      cases hstep : recStep s r with
      | bok sNext =>
        rw [hstep] at h
        exact ih h (recStep_owners_mono hstep hx)
      | berr m => rw [hstep] at h; cases h
      | panicked m => rw [hstep] at h; cases h

/-- Lemma: `buildLoop` keeps the owners entry at 0 empty. -/
theorem buildLoop_owners_zero {l : List Record} :
    ∀ {s s1 : BuildState}, buildLoop s l = .bok s1 →
      s.owners 0 = [] → s1.owners 0 = [] := by
  induction l with
  | nil =>
    intro s s1 h
    cases h
  | cons r rs ih =>
    intro s s1 h hz
    by_cases hr : r = .eof
    · rw [show buildLoop s (r :: rs) = .bok s by simp [buildLoop, hr]] at h
      cases h
      exact hz
    · simp only [buildLoop, if_neg hr] at h
      cases hstep : recStep s r with
      | bok sNext =>
        rw [hstep] at h
        exact ih h (recStep_owners_zero hstep hz)
      | berr m => rw [hstep] at h; cases h
      | panicked m => rw [hstep] at h; cases h

/-- Splitting a successful build at an EndOfFile-free front: the front
folds through `recStep` to a middle state from which the rest builds to
the same final state. -/
theorem buildLoop_split (xs : List Record) :
    ∀ (rest : List Record) (s sFin : BuildState), Record.eof ∉ xs →
      buildLoop s (xs ++ rest) = .bok sFin →
      ∃ sMid, foldRecs s xs = some sMid ∧
        buildLoop sMid rest = .bok sFin := by
  induction xs with
  | nil =>
    intro rest s sFin _ h
    exact ⟨s, rfl, h⟩
  | cons x xs ih =>
    intro rest s sFin hno h
    have hx : ¬ x = .eof := fun hcon => hno (hcon ▸ List.mem_cons_self x xs)
    rw [List.cons_append] at h
    simp only [buildLoop, if_neg hx] at h
    cases hstep : recStep s x with
    | bok sNext =>
      rw [hstep] at h
      obtain ⟨sMid, h1, h2⟩ :=
        ih rest sNext sFin (fun hc => hno (List.mem_cons_of_mem x hc)) h
      exact ⟨sMid, by simp [foldRecs, hstep, h1], h2⟩
    | berr m => rw [hstep] at h; cases h
    | panicked m => rw [hstep] at h; cases h

/-- The middle state of a fold carries exactly the last DumpParams seen
so far. -/
theorem foldRecs_params (xs : List Record) :
    ∀ {s sMid : BuildState}, foldRecs s xs = some sMid →
      sMid.params = paramsAfter s.params xs := by
  induction xs with
  | nil =>
    intro s sMid h
    cases h
    rfl
  | cons x xs ih =>
    intro s sMid h
    simp only [foldRecs] at h
    cases hstep : recStep s x with
    | bok sNext =>
      rw [hstep] at h
      rw [ih h, show paramsAfter s.params (x :: xs) =
        paramsAfter (paramsUpd x s.params) xs by simp [paramsAfter],
        recStep_params hstep]
    | berr m => rw [hstep] at h; cases h
    | panicked m => rw [hstep] at h; cases h

/-- A fold over an EndOfFile-free front never removes an owners-index
membership (used through `buildLoop_split`). -/
theorem foldRecs_owners_zero (xs : List Record) :
    ∀ {s sMid : BuildState}, foldRecs s xs = some sMid →
      s.owners 0 = [] → sMid.owners 0 = [] := by
  induction xs with
  | nil =>
    intro s sMid h hz
    cases h
    exact hz
  | cons x xs ih =>
    intro s sMid h hz
    simp only [foldRecs] at h
    cases hstep : recStep s x with
    | bok sNext =>
      rw [hstep] at h
      exact ih h (recStep_owners_zero hstep hz)
    | berr m => rw [hstep] at h; cases h
    | panicked m => rw [hstep] at h; cases h

/-! ## Claim C8 -/

/-- C8: after a successful build, an Owner record appearing after the
EndOfFile-free front `xs` is a member of `owners[t]` for every non-zero
target `t` its extraction (with the DumpParams in effect at that point)
produced; and zero targets create no entry (the owners index at 0
remains empty). -/
theorem c8_owners_membership (recs xs ys : List Record) (r : Record)
    (s : BuildState) (ov : OwnerView) (ss ts : List Nat) (t : Nat)
    (hrecs : recs = xs ++ r :: ys) (hno : Record.eof ∉ xs)
    (hb : buildRecords recs = .bok s)
    (hov : r.asOwner? = some ov)
    (hgpi : GetPointerInfo (paramsAfter none xs) ov = .pok ss ts)
    (ht : t ∈ ts) (ht0 : t ≠ 0) :
    r ∈ s.owners t ∧ s.owners 0 = [] := by
  subst hrecs
  obtain ⟨sMid, hfold, hloop⟩ :=
    buildLoop_split xs (r :: ys) emptyState s hno hb
  have hpar : sMid.params = paramsAfter none xs := foldRecs_params xs hfold
  have hre : ¬ r = .eof := asOwner_ne_eof hov
  simp only [buildLoop, if_neg hre] at hloop
  have hstep := recStep_owner_ok sMid r ov ss ts hov (by rw [hpar]; exact hgpi)
  rw [hstep] at hloop
  constructor
  · refine buildLoop_owners_mono hloop ?_
    show r ∈ addTargets ts r (stepState sMid r).owners t
    rw [stepState_owners]
    exact addTargets_self ts r _ ht ht0
  · refine buildLoop_owners_zero hloop ?_
    show addTargets ts r (stepState sMid r).owners 0 = []
    rw [addTargets_zero, stepState_owners]
    exact foldRecs_owners_zero xs hfold rfl

/-- The DumpParams of the C8 witness dump. -/
def c8Params : DumpParams := ⟨false, 8, 0, 0, "amd64", "", 1⟩

/-- The Object of the C8 witness dump: one pointer field at offset 0
whose little-endian value is 0x3000. -/
def c8Obj : Object := ⟨8192, [0, 48, 0, 0, 0, 0, 0, 0], [0], ""⟩

/-- The C8 witness dump: DumpParams, one Object, EndOfFile. -/
def c8Recs : List Record := [.dumpParams c8Params, .object c8Obj, .eof]

/-- The state the C8 witness dump builds to. -/
def c8State : BuildState :=
  ⟨some c8Params, [(8192, .object c8Obj)],
    addTargets [12288] (.object c8Obj) (fun _ => []), []⟩

/-- C8, witnessed on the two-record dump: the Object lands in
`owners[0x3000]` and `owners[0]` stays empty. -/
theorem c8_witness :
    Record.object c8Obj ∈ c8State.owners 12288 ∧ c8State.owners 0 = [] :=
  c8_owners_membership c8Recs [.dumpParams c8Params] [.eof] (.object c8Obj)
    c8State ⟨8192, [0, 48, 0, 0, 0, 0, 0, 0], [0]⟩ [8192] [12288] 12288
    rfl (by decide) rfl rfl (by decide) (by decide) (by decide)

/-! ## Claim C10 -/

/-- C10 inner induction: from any state with no DumpParams captured,
a stream whose front contains neither EndOfFile nor DumpParams and then
reaches an Owner record panics with the nil-dereference message. -/
theorem buildLoop_ownerBeforeParams (xs : List Record) :
    ∀ (s : BuildState), s.params = none →
      (∀ x ∈ xs, (∀ q, x ≠ Record.dumpParams q) ∧ x ≠ Record.eof) →
      ∀ (ys : List Record) (r : Record) (ov : OwnerView),
        r.asOwner? = some ov →
        buildLoop s (xs ++ r :: ys) = .panicked nilDerefMsg := by
  induction xs with
  | nil =>
    intro s hp _ ys r ov hov
    have hre : ¬ r = .eof := asOwner_ne_eof hov
    simp only [List.nil_append, buildLoop, if_neg hre]
    rw [recStep_owner_panic s r ov nilDerefMsg hov (by rw [hp]; rfl)]
  | cons x xs ih =>
    intro s hp hxs ys r ov hov
    have hx := hxs x (List.mem_cons_self x xs)
    rw [List.cons_append]
    simp only [buildLoop, if_neg hx.2]
    rcases hxo : x.asOwner? with _ | xov
    · rw [recStep_notOwner s x hxo]
      refine ih (stepState s x) ?_
        (fun y hy => hxs y (List.mem_cons_of_mem x hy)) ys r ov hov
      rw [stepState_params_ne s x hx.1]
      exact hp
    · rw [recStep_owner_panic s x xov nilDerefMsg hxo (by rw [hp]; rfl)]

/-- C10: if any Owner record appears in the stream before the
DumpParams record, the build panics with the nil-pointer-dereference
runtime error (never a returned error value), because `GetPointerInfo`
reads `p.BigEndian` from the nil params before the field loop — so this
holds even when the contents and field list of the owner are empty. -/
theorem c10_owner_before_params_panics (xs ys : List Record) (r : Record) (ov : OwnerView)
    (hxs : ∀ x ∈ xs, (∀ q, x ≠ Record.dumpParams q) ∧ x ≠ Record.eof)
    (hov : r.asOwner? = some ov) :
    buildRecords (xs ++ r :: ys) = .panicked nilDerefMsg :=
  buildLoop_ownerBeforeParams xs emptyState rfl hxs ys r ov hov

/-- C10, witnessed: a dump that opens with an Object with empty
contents and empty field list panics immediately. -/
theorem c10_witness :
    buildRecords [.object ⟨1, [], [], ""⟩] = .panicked nilDerefMsg :=
  c10_owner_before_params_panics [] [] (.object ⟨1, [], [], ""⟩) ⟨1, [], []⟩
    (by intro x hx; cases hx) rfl

/-! ## Claim C9 -/

/-- C9: each query allocates its own visited set on entry and resets
the `visited` field to nil on every exit path, and the indices are
never written by a query — so re-running the same query (PrintOwners,
PrintAnchors) on the instance returned by the first run yields the
identical result, and Hexdump is unaffected by a prior traversal
query. -/
theorem c9_queries_state_free (c : TreeClimber) (fuel address a2 : Nat)
    (depth : Int) :
    (PrintOwnersQ ((PrintOwnersQ c fuel address depth).2) fuel address
        depth).1 = (PrintOwnersQ c fuel address depth).1 ∧
    (PrintAnchorsQ ((PrintAnchorsQ c fuel address).2) fuel address).1 =
      (PrintAnchorsQ c fuel address).1 ∧
    HexdumpQ ((PrintOwnersQ c fuel address depth).2) a2 = HexdumpQ c a2 ∧
    HexdumpQ ((PrintAnchorsQ c fuel address).2) a2 = HexdumpQ c a2 := by
  exact ⟨rfl, rfl, rfl, rfl⟩

/-! ## Termination lemmas for the traversal engine (claim C6) -/

/-- Adding one unit of fuel does not change a result that was reached
within the budget (`printOwners` and its owner loop together). -/
theorem pow_mono (mem : List (Nat × Record)) (ow : Nat → List Record) :
    ∀ n : Nat,
      (∀ v a d ind, printOwnersF mem ow n v a d ind ≠ .fuelOut →
        printOwnersF mem ow (n + 1) v a d ind =
          printOwnersF mem ow n v a d ind) ∧
      (∀ rs v d ind, printOwnersList mem ow n rs v d ind ≠ .fuelOut →
        printOwnersList mem ow (n + 1) rs v d ind =
          printOwnersList mem ow n rs v d ind) := by
  intro n
  induction n with
  | zero =>
    constructor
    · intro v a d ind h
      exact absurd rfl h
    · intro rs v d ind h
      exact absurd rfl h
  | succ n ih =>
    constructor
    · intro v a d ind h
      by_cases hd : d = 0
      · simp [printOwnersF, hd]
      by_cases hv : a ∈ v
      · simp [printOwnersF, hd, hv]
      cases hm : lookupA mem a with
      | none => simp [printOwnersF, hd, hv, hm]
      | some r =>
        cases hs : recordString r with
        | none => simp [printOwnersF, hd, hv, hm, hs]
        | some str =>
          have hL : printOwnersList mem ow n (ow a) (a :: v) (d - 1) ind ≠
              .fuelOut := by
            intro hcon
            apply h
            simp [printOwnersF, hd, hv, hm, hs, hcon]
          have heq := ih.2 (ow a) (a :: v) (d - 1) ind hL
          simp [printOwnersF, hd, hv, hm, hs, heq]
    · intro rs v d ind h
      cases rs with
      | nil => simp [printOwnersList]
      | cons r rs =>
        cases hga : r.getAddress? with
        | none =>
          have hL : printOwnersList mem ow n rs v d ind ≠ .fuelOut := by
            intro hcon
            apply h
            simp [printOwnersList, hga, hcon]
          have heq := ih.2 rs v d ind hL
          simp [printOwnersList, hga, heq]
        | some b =>
          have hF : printOwnersF mem ow n v b d (ind ++ "  ") ≠ .fuelOut := by
            intro hcon
            apply h
            simp [printOwnersList, hga, hcon]
          have hFeq := ih.1 v b d (ind ++ "  ") hF
          cases hFr : printOwnersF mem ow n v b d (ind ++ "  ") with
          | panicked m =>
            rw [hFr] at hFeq
            simp [printOwnersList, hga, hFeq, hFr]
          | fuelOut => exact absurd hFr hF
          | ok res =>
            obtain ⟨v1, out, e⟩ := res
            rw [hFr] at hFeq
            have hL2 : printOwnersList mem ow n rs v1 d ind ≠ .fuelOut := by
              intro hcon
              apply h
              simp [printOwnersList, hga, hFr, hcon]
            have hLeq := ih.2 rs v1 d ind hL2
            simp [printOwnersList, hga, hFeq, hFr, hLeq]

/-- Fuel monotonicity for `printOwners`, arbitrary budget increase. -/
theorem pow_mono_le (mem : List (Nat × Record)) (ow : Nat → List Record)
    {n m : Nat} (hnm : n ≤ m) :
    (∀ v a d ind, printOwnersF mem ow n v a d ind ≠ .fuelOut →
      printOwnersF mem ow m v a d ind =
        printOwnersF mem ow n v a d ind) ∧
    (∀ rs v d ind, printOwnersList mem ow n rs v d ind ≠ .fuelOut →
      printOwnersList mem ow m rs v d ind =
        printOwnersList mem ow n rs v d ind) := by
  induction m, hnm using Nat.le_induction with
  | base => exact ⟨fun _ _ _ _ _ => rfl, fun _ _ _ _ _ => rfl⟩
  | succ m hm ih =>
    constructor
    · intro v a d ind h
      have h1 := ih.1 v a d ind h
      have h2 : printOwnersF mem ow m v a d ind ≠ .fuelOut := by
        rw [h1]
        exact h
      rw [(pow_mono mem ow m).1 v a d ind h2, h1]
    · intro rs v d ind h
      have h1 := ih.2 rs v d ind h
      have h2 : printOwnersList mem ow m rs v d ind ≠ .fuelOut := by
        rw [h1]
        exact h
      rw [(pow_mono mem ow m).2 rs v d ind h2, h1]

/-- The visited set only grows through `printOwners`. -/
theorem pow_visited (mem : List (Nat × Record)) (ow : Nat → List Record) :
    ∀ n : Nat,
      (∀ v a d ind v1 outs e,
        printOwnersF mem ow n v a d ind = .ok (v1, outs, e) →
        ∀ x ∈ v, x ∈ v1) ∧
      (∀ rs v d ind v1 outs,
        printOwnersList mem ow n rs v d ind = .ok (v1, outs) →
        ∀ x ∈ v, x ∈ v1) := by
  intro n
  induction n with
  | zero =>
    constructor
    · intro v a d ind v1 outs e h
      cases h
    · intro rs v d ind v1 outs h
      cases h
  | succ n ih =>
    constructor
    · intro v a d ind v1 outs e h x hx
      by_cases hd : d = 0
      · simp [printOwnersF, hd] at h
        rw [← h.1]
        exact hx
      by_cases hv : a ∈ v
      · simp [printOwnersF, hd, hv] at h
        rw [← h.1]
        exact hx
      cases hm : lookupA mem a with
      | none =>
        simp [printOwnersF, hd, hv, hm] at h
        rw [← h.1]
        exact List.mem_cons_of_mem a hx
      | some r =>
        cases hs : recordString r with
        | none => simp [printOwnersF, hd, hv, hm, hs] at h
        | some str =>
          simp only [printOwnersF, if_neg hd, if_neg hv, hm, hs] at h
          cases hL : printOwnersList mem ow n (ow a) (a :: v) (d - 1)
              ind with
          | ok res2 =>
            obtain ⟨v2, outs2⟩ := res2
            rw [hL] at h
            simp at h
            rw [← h.1]
            exact ih.2 (ow a) (a :: v) (d - 1) ind v2 outs2 hL x
              (List.mem_cons_of_mem a hx)
          | panicked m =>
            rw [hL] at h
            cases h
          | fuelOut =>
            rw [hL] at h
            cases h
    · intro rs v d ind v1 outs h x hx
      cases rs with
      | nil =>
        simp [printOwnersList] at h
        rw [← h.1]
        exact hx
      | cons r rs =>
        cases hga : r.getAddress? with
        | none =>
          simp only [printOwnersList, hga] at h
          exact ih.2 rs v d ind v1 outs h x hx
        | some b =>
          simp only [printOwnersList, hga] at h
          split at h
          case h_2 => cases h
          case h_3 => cases h
          case h_1 =>
            rename_i v2 out2 e2 hF
            split at h
            case h_2 => cases h
            case h_3 => cases h
            case h_1 =>
              rename_i v3 outs3 hL
              cases h
              exact ih.2 rs v2 d ind _ _ hL x
                (ih.1 v b d (ind ++ "  ") v2 out2 e2 hF x hx)

/-- The number of addresses in the memory index not yet visited: the
measure that shrinks as a traversal marks nodes. -/
def unvisited (mem : List (Nat × Record)) (v : List Nat) : Nat :=
  ((mem.map Prod.fst).toFinset \ v.toFinset).card

/-- A successful lookup means the address is a key of the index. -/
theorem lookupA_mem {β : Type} {mem : List (Nat × β)} {a : Nat} {r : β}
    (h : lookupA mem a = some r) : a ∈ mem.map Prod.fst := by
  induction mem with
  | nil => cases h
  | cons p t ih =>
    obtain ⟨k, q⟩ := p
    simp only [lookupA] at h
    by_cases hk : k = a
    · simp [hk]
    · rw [if_neg hk] at h
      exact List.mem_cons_of_mem _ (ih h)

/-- Visiting a fresh address from the memory index strictly shrinks the
measure. -/
theorem unvisited_lt {mem : List (Nat × Record)} {v : List Nat} {a : Nat}
    (ha : a ∈ mem.map Prod.fst) (hv : a ∉ v) :
    unvisited mem (a :: v) < unvisited mem v := by
  apply Finset.card_lt_card
  rw [Finset.ssubset_iff_of_subset]
  · refine ⟨a, ?_, ?_⟩
    · rw [Finset.mem_sdiff]
      exact ⟨by simpa using ha, by simpa using hv⟩
    · simp
  · refine Finset.sdiff_subset_sdiff (le_refl _) ?_
    intro x hx
    simp only [List.toFinset_cons, Finset.mem_insert]
    right
    exact hx

/-- Growing the visited set can only shrink the measure. -/
theorem unvisited_le {mem : List (Nat × Record)} {v v1 : List Nat}
    (h : ∀ x ∈ v, x ∈ v1) : unvisited mem v1 ≤ unvisited mem v := by
  apply Finset.card_le_card
  refine Finset.sdiff_subset_sdiff (le_refl _) ?_
  intro x hx
  rw [List.mem_toFinset] at hx ⊢
  exact h x hx

/-- Lemma: `printOwners` terminates: some fuel budget suffices, for every
memory index, owners index, visited set, start address, depth
(negative included) and indent — the visited set prunes all loops. -/
theorem pow_term (mem : List (Nat × Record)) (ow : Nat → List Record) :
    ∀ (k : Nat) (v : List Nat), unvisited mem v ≤ k →
      ∀ (a : Nat) (d : Int) (ind : String),
        ∃ n, printOwnersF mem ow n v a d ind ≠ .fuelOut := by
  intro k
  induction k with
  | zero =>
    intro v hk a d ind
    by_cases hd : d = 0
    · exact ⟨1, by simp [printOwnersF, hd]⟩
    by_cases hv : a ∈ v
    · exact ⟨1, by simp [printOwnersF, hd, hv]⟩
    cases hm : lookupA mem a with
    | none => exact ⟨1, by simp [printOwnersF, hd, hv, hm]⟩
    | some r =>
      exfalso
      have := unvisited_lt (lookupA_mem hm) hv
      omega
  | succ k ih =>
    intro v hk a d ind
    by_cases hd : d = 0
    · exact ⟨1, by simp [printOwnersF, hd]⟩
    by_cases hv : a ∈ v
    · exact ⟨1, by simp [printOwnersF, hd, hv]⟩
    cases hm : lookupA mem a with
    | none => exact ⟨1, by simp [printOwnersF, hd, hv, hm]⟩
    | some r =>
      cases hs : recordString r with
      | none => exact ⟨1, by simp [printOwnersF, hd, hv, hm, hs]⟩
      | some str =>
        have hk1 : unvisited mem (a :: v) ≤ k := by
          have := unvisited_lt (lookupA_mem hm) hv
          omega
        have hlist : ∀ (rs : List Record) (v1 : List Nat),
            unvisited mem v1 ≤ k → ∀ (d1 : Int) (ind1 : String),
            ∃ n, printOwnersList mem ow n rs v1 d1 ind1 ≠ .fuelOut := by
          intro rs
          induction rs with
          | nil =>
            intro v1 _ d1 ind1
            exact ⟨1, by simp [printOwnersList]⟩
          | cons r1 rs ihr =>
            intro v1 hk2 d1 ind1
            cases hga : r1.getAddress? with
            | none =>
              obtain ⟨n, hn⟩ := ihr v1 hk2 d1 ind1
              refine ⟨n + 1, ?_⟩
              simpa [printOwnersList, hga] using hn
            | some b =>
              obtain ⟨n1, h1⟩ := ih v1 hk2 b d1 (ind1 ++ "  ")
              cases hF : printOwnersF mem ow n1 v1 b d1 (ind1 ++ "  ") with
              | fuelOut => exact absurd hF h1
              | panicked m =>
                exact ⟨n1 + 1, by simp [printOwnersList, hga, hF]⟩
              | ok res =>
                obtain ⟨v2, out2, e2⟩ := res
                have hv2 : ∀ x ∈ v1, x ∈ v2 :=
                  (pow_visited mem ow n1).1 v1 b d1 _ v2 out2 e2 hF
                have hk3 : unvisited mem v2 ≤ k :=
                  le_trans (unvisited_le hv2) hk2
                obtain ⟨n2, h2⟩ := ihr v2 hk3 d1 ind1
                refine ⟨max n1 n2 + 1, ?_⟩
                have hFm : printOwnersF mem ow (max n1 n2) v1 b d1
                    (ind1 ++ "  ") = .ok (v2, out2, e2) := by
                  rw [(pow_mono_le mem ow (le_max_left n1 n2)).1 v1 b d1 _
                    h1, hF]
                have hLm : printOwnersList mem ow (max n1 n2) rs v2 d1
                    ind1 = printOwnersList mem ow n2 rs v2 d1 ind1 :=
                  (pow_mono_le mem ow (le_max_right n1 n2)).2 rs v2 d1
                    ind1 h2
                simp only [printOwnersList, hga, hFm, hLm]
                cases hL2 : printOwnersList mem ow n2 rs v2 d1 ind1 with
                | ok res2 => simp
                | panicked m => simp
                | fuelOut => exact absurd hL2 h2
        obtain ⟨n, hn⟩ := hlist (ow a) (a :: v) hk1 (d - 1) ind
        refine ⟨n + 1, ?_⟩
        simp only [printOwnersF, if_neg hd, if_neg hv, hm, hs]
        cases hL : printOwnersList mem ow n (ow a) (a :: v) (d - 1)
            ind with
        | ok res => simp
        | panicked m => simp
        | fuelOut => exact absurd hL hn

/-- Fuel monotonicity of the ChildPointer walk. -/
theorem cw_mono (mem : List (Nat × Record)) :
    ∀ (n : Nat) (ptr : Nat), childWalkF mem n ptr ≠ .fuelOut →
      childWalkF mem (n + 1) ptr = childWalkF mem n ptr := by
  intro n
  induction n with
  | zero =>
    intro ptr h
    exact absurd rfl h
  | succ n ih =>
    intro ptr h
    have h2 : childWalkStep mem (childWalkF mem n) ptr ≠ .fuelOut := h
    show childWalkStep mem (childWalkF mem (n + 1)) ptr =
      childWalkStep mem (childWalkF mem n) ptr
    by_cases hp : ptr = 0
    · simp [childWalkStep, hp]
    cases hm : lookupA mem ptr with
    | none => simp [childWalkStep, hp, hm]
    | some r =>
      cases r <;> try (simp [childWalkStep, hp, hm]; done)
      rename_i sf
      have hc : childWalkF mem n sf.ChildPointer ≠ .fuelOut := by
        intro hcon
        apply h2
        simp [childWalkStep, hp, hm, hcon]
      simp only [childWalkStep, if_neg hp, hm]
      rw [ih sf.ChildPointer hc]

/-- Fuel monotonicity of the ChildPointer walk, arbitrary increase. -/
theorem cw_mono_le (mem : List (Nat × Record)) {n m : Nat} (hnm : n ≤ m)
    (ptr : Nat) (h : childWalkF mem n ptr ≠ .fuelOut) :
    childWalkF mem m ptr = childWalkF mem n ptr := by
  induction m, hnm using Nat.le_induction with
  | base => rfl
  | succ m hm ih =>
    have h2 : childWalkF mem m ptr ≠ .fuelOut := by
      rw [ih]
      exact h
    rw [cw_mono mem m ptr h2, ih]

/-- Fuel monotonicity of the root-line switch. -/
theorem rl_mono (mem : List (Nat × Record)) (n : Nat) (r : Record)
    (h : rootLinesF mem n r ≠ .fuelOut) :
    rootLinesF mem (n + 1) r = rootLinesF mem n r := by
  cases r <;> try (simp [rootLinesF]; done)
  rename_i sf
  have hc : childWalkF mem n sf.ChildPointer ≠ .fuelOut := by
    intro hcon
    apply h
    simp [rootLinesF, hcon]
  simp [rootLinesF, cw_mono mem n _ hc]

/-- Fuel monotonicity of the root-line switch, arbitrary increase. -/
theorem rl_mono_le (mem : List (Nat × Record)) {n m : Nat} (hnm : n ≤ m)
    (r : Record) (h : rootLinesF mem n r ≠ .fuelOut) :
    rootLinesF mem m r = rootLinesF mem n r := by
  induction m, hnm using Nat.le_induction with
  | base => rfl
  | succ m hm ih =>
    have h2 : rootLinesF mem m r ≠ .fuelOut := by
      rw [ih]
      exact h
    rw [rl_mono mem m r h2, ih]

/-- If every ChildPointer walk halts, the root-line switch halts on
every record. -/
theorem rl_term (mem : List (Nat × Record))
    (hcw : ∀ x, ∃ n, childWalkF mem n x ≠ .fuelOut) (r : Record) :
    ∃ n, rootLinesF mem n r ≠ .fuelOut := by
  cases r <;> try (refine ⟨0, ?_⟩; simp [rootLinesF]; done)
  rename_i sf
  obtain ⟨n, hn⟩ := hcw sf.ChildPointer
  refine ⟨n, ?_⟩
  simp only [rootLinesF]
  cases hc : childWalkF mem n sf.ChildPointer with
  | ok ls => simp
  | panicked m => simp
  | fuelOut => exact absurd hc hn

/-- Adding one unit of fuel does not change a `printAnchors` result
that was reached within the budget. -/
theorem paw_mono (mem : List (Nat × Record)) (ow : Nat → List Record) :
    ∀ n : Nat,
      (∀ v a, printAnchorsF mem ow n v a ≠ .fuelOut →
        printAnchorsF mem ow (n + 1) v a = printAnchorsF mem ow n v a) ∧
      (∀ rs v, printAnchorsList mem ow n rs v ≠ .fuelOut →
        printAnchorsList mem ow (n + 1) rs v =
          printAnchorsList mem ow n rs v) := by
  intro n
  induction n with
  | zero =>
    constructor
    · intro v a h
      exact absurd rfl h
    · intro rs v h
      exact absurd rfl h
  | succ n ih =>
    constructor
    · intro v a h
      by_cases hv : a ∈ v
      · simp [printAnchorsF, hv]
      cases hm : lookupA mem a with
      | none => simp [printAnchorsF, hv, hm]
      | some r =>
        have hrl : rootLinesF mem n r ≠ .fuelOut := by
          intro hcon
          apply h
          simp [printAnchorsF, hv, hm, hcon]
        have hrlEq := rl_mono mem n r hrl
        cases hrlV : rootLinesF mem n r with
        | panicked m =>
          rw [hrlV] at hrlEq
          simp [printAnchorsF, hv, hm, hrlEq, hrlV]
        | fuelOut => exact absurd hrlV hrl
        | ok rootLines =>
          rw [hrlV] at hrlEq
          have hL : printAnchorsList mem ow n (ow a) (a :: v) ≠
              .fuelOut := by
            intro hcon
            apply h
            simp [printAnchorsF, hv, hm, hrlV, hcon]
          have hLeq := ih.2 (ow a) (a :: v) hL
          simp [printAnchorsF, hv, hm, hrlEq, hrlV, hLeq]
    · intro rs v h
      cases rs with
      | nil => simp [printAnchorsList]
      | cons r rs =>
        cases hga : r.getAddress? with
        | none =>
          have hL : printAnchorsList mem ow n rs v ≠ .fuelOut := by
            intro hcon
            apply h
            simp [printAnchorsList, hga, hcon]
          simp [printAnchorsList, hga, ih.2 rs v hL]
        | some b =>
          have hF : printAnchorsF mem ow n v b ≠ .fuelOut := by
            intro hcon
            apply h
            simp [printAnchorsList, hga, hcon]
          have hFeq := ih.1 v b hF
          cases hFr : printAnchorsF mem ow n v b with
          | panicked m =>
            rw [hFr] at hFeq
            simp [printAnchorsList, hga, hFeq, hFr]
          | fuelOut => exact absurd hFr hF
          | ok res =>
            obtain ⟨v1, out, e⟩ := res
            rw [hFr] at hFeq
            have hL2 : printAnchorsList mem ow n rs v1 ≠ .fuelOut := by
              intro hcon
              apply h
              simp [printAnchorsList, hga, hFr, hcon]
            have hLeq := ih.2 rs v1 hL2
            simp [printAnchorsList, hga, hFeq, hFr, hLeq]

/-- Fuel monotonicity for `printAnchors`, arbitrary increase. -/
theorem paw_mono_le (mem : List (Nat × Record)) (ow : Nat → List Record)
    {n m : Nat} (hnm : n ≤ m) :
    (∀ v a, printAnchorsF mem ow n v a ≠ .fuelOut →
      printAnchorsF mem ow m v a = printAnchorsF mem ow n v a) ∧
    (∀ rs v, printAnchorsList mem ow n rs v ≠ .fuelOut →
      printAnchorsList mem ow m rs v = printAnchorsList mem ow n rs v) := by
  induction m, hnm using Nat.le_induction with
  | base => exact ⟨fun _ _ _ => rfl, fun _ _ _ => rfl⟩
  | succ m hm ih =>
    constructor
    · intro v a h
      have h1 := ih.1 v a h
      have h2 : printAnchorsF mem ow m v a ≠ .fuelOut := by
        rw [h1]
        exact h
      rw [(paw_mono mem ow m).1 v a h2, h1]
    · intro rs v h
      have h1 := ih.2 rs v h
      have h2 : printAnchorsList mem ow m rs v ≠ .fuelOut := by
        rw [h1]
        exact h
      rw [(paw_mono mem ow m).2 rs v h2, h1]

/-- The visited set only grows through `printAnchors`. -/
theorem paw_visited (mem : List (Nat × Record)) (ow : Nat → List Record) :
    ∀ n : Nat,
      (∀ v a v1 outs e, printAnchorsF mem ow n v a = .ok (v1, outs, e) →
        ∀ x ∈ v, x ∈ v1) ∧
      (∀ rs v v1 outs, printAnchorsList mem ow n rs v = .ok (v1, outs) →
        ∀ x ∈ v, x ∈ v1) := by
  intro n
  induction n with
  | zero =>
    constructor
    · intro v a v1 outs e h
      cases h
    · intro rs v v1 outs h
      cases h
  | succ n ih =>
    constructor
    · intro v a v1 outs e h x hx
      by_cases hv : a ∈ v
      · simp [printAnchorsF, hv] at h
        rw [← h.1]
        exact hx
      cases hm : lookupA mem a with
      | none =>
        simp [printAnchorsF, hv, hm] at h
        rw [← h.1]
        exact List.mem_cons_of_mem a hx
      | some r =>
        simp only [printAnchorsF, if_neg hv, hm] at h
        split at h
        · cases h
        · cases h
        · rename_i rootLines hrl
          split at h
          · rename_i v2 outs2 hL
            cases h
            exact ih.2 (ow a) (a :: v) _ _ hL x
              (List.mem_cons_of_mem a hx)
          · cases h
          · cases h
    · intro rs v v1 outs h x hx
      cases rs with
      | nil =>
        simp [printAnchorsList] at h
        rw [← h.1]
        exact hx
      | cons r rs =>
        cases hga : r.getAddress? with
        | none =>
          simp only [printAnchorsList, hga] at h
          exact ih.2 rs v v1 outs h x hx
        | some b =>
          simp only [printAnchorsList, hga] at h
          split at h
          · rename_i v2 out2 e2 hF
            split at h
            · rename_i v3 outs3 hL
              cases h
              exact ih.2 rs v2 _ _ hL x
                (ih.1 v b v2 out2 e2 hF x hx)
            · cases h
            · cases h
          · cases h
          · cases h

/-- Lemma: `printAnchors` terminates whenever every ChildPointer walk halts:
some fuel budget suffices for every visited set and start address (the
per-call visited set prunes owner loops; the chain hypothesis is what
the unguarded child walk of the source needs). -/
theorem paw_term (mem : List (Nat × Record)) (ow : Nat → List Record)
    (hcw : ∀ x, ∃ n, childWalkF mem n x ≠ .fuelOut) :
    ∀ (k : Nat) (v : List Nat), unvisited mem v ≤ k →
      ∀ (a : Nat), ∃ n, printAnchorsF mem ow n v a ≠ .fuelOut := by
  intro k
  induction k with
  | zero =>
    intro v hk a
    by_cases hv : a ∈ v
    · exact ⟨1, by simp [printAnchorsF, hv]⟩
    cases hm : lookupA mem a with
    | none => exact ⟨1, by simp [printAnchorsF, hv, hm]⟩
    | some r =>
      exfalso
      have := unvisited_lt (lookupA_mem hm) hv
      omega
  | succ k ih =>
    intro v hk a
    by_cases hv : a ∈ v
    · exact ⟨1, by simp [printAnchorsF, hv]⟩
    cases hm : lookupA mem a with
    | none => exact ⟨1, by simp [printAnchorsF, hv, hm]⟩
    | some r =>
      have hk1 : unvisited mem (a :: v) ≤ k := by
        have := unvisited_lt (lookupA_mem hm) hv
        omega
      have hlist : ∀ (rs : List Record) (v1 : List Nat),
          unvisited mem v1 ≤ k →
          ∃ n, printAnchorsList mem ow n rs v1 ≠ .fuelOut := by
        intro rs
        induction rs with
        | nil =>
          intro v1 _
          exact ⟨1, by simp [printAnchorsList]⟩
        | cons r1 rs ihr =>
          intro v1 hk2
          cases hga : r1.getAddress? with
          | none =>
            obtain ⟨n, hn⟩ := ihr v1 hk2
            refine ⟨n + 1, ?_⟩
            simpa [printAnchorsList, hga] using hn
          | some b =>
            obtain ⟨n1, h1⟩ := ih v1 hk2 b
            cases hF : printAnchorsF mem ow n1 v1 b with
            | fuelOut => exact absurd hF h1
            | panicked m =>
              exact ⟨n1 + 1, by simp [printAnchorsList, hga, hF]⟩
            | ok res =>
              obtain ⟨v2, out2, e2⟩ := res
              have hv2 : ∀ x ∈ v1, x ∈ v2 :=
                (paw_visited mem ow n1).1 v1 b v2 out2 e2 hF
              have hk3 : unvisited mem v2 ≤ k :=
                le_trans (unvisited_le hv2) hk2
              obtain ⟨n2, h2⟩ := ihr v2 hk3
              refine ⟨max n1 n2 + 1, ?_⟩
              have hFm : printAnchorsF mem ow (max n1 n2) v1 b =
                  .ok (v2, out2, e2) := by
                rw [(paw_mono_le mem ow (le_max_left n1 n2)).1 v1 b h1, hF]
              have hLm : printAnchorsList mem ow (max n1 n2) rs v2 =
                  printAnchorsList mem ow n2 rs v2 :=
                (paw_mono_le mem ow (le_max_right n1 n2)).2 rs v2 h2
              simp only [printAnchorsList, hga, hFm, hLm]
              cases hL2 : printAnchorsList mem ow n2 rs v2 with
              | ok res2 => simp
              | panicked m => simp
              | fuelOut => exact absurd hL2 h2
      obtain ⟨nr, hnr⟩ := rl_term mem hcw r
      obtain ⟨nl, hnl⟩ := hlist (ow a) (a :: v) hk1
      refine ⟨max nr nl + 1, ?_⟩
      have hrlm : rootLinesF mem (max nr nl) r = rootLinesF mem nr r :=
        rl_mono_le mem (le_max_left nr nl) r hnr
      simp only [printAnchorsF, if_neg hv, hm, hrlm]
      cases hrlV : rootLinesF mem nr r with
      | fuelOut => exact absurd hrlV hnr
      | panicked m => simp
      | ok rootLines =>
        have hLm : printAnchorsList mem ow (max nr nl) (ow a) (a :: v) =
            printAnchorsList mem ow nl (ow a) (a :: v) :=
          (paw_mono_le mem ow (le_max_right nr nl)).2 (ow a) (a :: v) hnl
        rw [hLm]
        cases hL : printAnchorsList mem ow nl (ow a) (a :: v) with
        | ok res => simp
        | panicked m => simp
        | fuelOut => exact absurd hL hnl

/-! ## Claim C6 -/

/-- One frame of the ChildPointer cycle: its child is the other
frame. -/
def cycA : StackFrame := ⟨1, 0, 2, [], 0, 0, 0, "a", []⟩

/-- The other frame of the cycle, pointing back at the first. -/
def cycB : StackFrame := ⟨2, 1, 1, [], 0, 0, 0, "b", []⟩

/-- A memory index whose StackFrame ChildPointer chain cycles. -/
def cycMem : List (Nat × Record) :=
  [(1, .stackFrame cycA), (2, .stackFrame cycB)]

/-- An analyzer built over the cyclic-chain dump. -/
def cycTC : TreeClimber := ⟨none, cycMem, fun _ => [], none, []⟩

/-- On the cyclic chain, the ChildPointer walk never finishes at any
fuel. -/
theorem cycMem_childWalk_diverges :
    ∀ n, childWalkF cycMem n 1 = .fuelOut ∧
      childWalkF cycMem n 2 = .fuelOut := by
  intro n
  induction n with
  | zero => exact ⟨rfl, rfl⟩
  | succ n ih =>
    constructor
    · show childWalkStep cycMem (childWalkF cycMem n) 1 = .fuelOut
      have l1 : lookupA cycMem 1 = some (.stackFrame cycA) := rfl
      simp [childWalkStep, l1, cycA, ih.2]
    · show childWalkStep cycMem (childWalkF cycMem n) 2 = .fuelOut
      have l2 : lookupA cycMem 2 = some (.stackFrame cycB) := rfl
      simp [childWalkStep, l2, cycB, ih.1]

/-- C6 counterexample: `PrintAnchors(1)` on the dump whose StackFrame
ChildPointer chain cycles (1 → 2 → 1) runs the unguarded child walk
forever: no fuel budget ever completes it.  This refutes
"PrintAnchors(a) terminates on any input … including dumps where
StackFrame ChildPointer chains contain cycles". -/
theorem c6_counterexample :
    ¬ ∃ n, (PrintAnchorsQ cycTC n 1).1 ≠ .fuelOut := by
  rintro ⟨n, hn⟩
  apply hn
  cases n with
  | zero => rfl
  | succ n =>
    have l1 : lookupA cycMem 1 = some (.stackFrame cycA) := rfl
    simp [PrintAnchorsQ, printAnchorsF, cycTC, l1, rootLinesF, cycA,
      (cycMem_childWalk_diverges n).2]

/-- C6 amended: `PrintOwners(a, d)` terminates for every start address
and every depth, positive or negative, on every dump (owner loops are
pruned by the visited set); `PrintAnchors(a)` terminates provided every
ChildPointer walk over the memory index halts — the child walk has no
visited set, so a cyclic chain (see the counterexample) loops
forever. -/
theorem c6_amended (c : TreeClimber) :
    (∀ (a : Nat) (d : Int), ∃ n, (PrintOwnersQ c n a d).1 ≠ .fuelOut) ∧
    ((∀ x, ∃ n, childWalkF c.memory n x ≠ .fuelOut) →
      ∀ (a : Nat), ∃ n, (PrintAnchorsQ c n a).1 ≠ .fuelOut) := by
  constructor
  · intro a d
    obtain ⟨n, hn⟩ := pow_term c.memory c.owners (unvisited c.memory [])
      [] (le_refl _) a (if d > 0 then d + 1 else d) ""
    refine ⟨n, ?_⟩
    cases hF : printOwnersF c.memory c.owners n [] a
        (if d > 0 then d + 1 else d) "" with
    | ok res =>
      obtain ⟨v1, outs, e⟩ := res
      simp [PrintOwnersQ, hF]
    | panicked m => simp [PrintOwnersQ, hF]
    | fuelOut => exact absurd hF hn
  · intro hcw a
    obtain ⟨n, hn⟩ := paw_term c.memory c.owners hcw
      (unvisited c.memory []) [] (le_refl _) a
    refine ⟨n, ?_⟩
    cases hF : printAnchorsF c.memory c.owners n [] a with
    | ok res =>
      obtain ⟨v1, outs, e⟩ := res
      simp [PrintAnchorsQ, hF]
    | panicked m => simp [PrintAnchorsQ, hF]
    | fuelOut => exact absurd hF hn

/-- The single, well-formed stack frame of the C6 witness (child
pointer 0 ends the walk). -/
def c6WFrame : StackFrame := ⟨1, 0, 0, [], 0, 0, 0, "w", []⟩

/-- The analyzer of the C6 witness. -/
def c6WTC : TreeClimber :=
  ⟨none, [(1, .stackFrame c6WFrame)], fun _ => [], none, []⟩

/-- C6 amended, witnessed: on a one-frame dump with a 0 child pointer
both queries terminate (the chain hypothesis discharged by hand). -/
theorem c6_witness :
    (∃ n, (PrintOwnersQ c6WTC n 1 (-1)).1 ≠ .fuelOut) ∧
    (∃ n, (PrintAnchorsQ c6WTC n 1).1 ≠ .fuelOut) := by
  have hcw : ∀ x, ∃ n, childWalkF c6WTC.memory n x ≠ .fuelOut := by
    intro x
    by_cases h0 : x = 0
    · refine ⟨1, ?_⟩
      show childWalkStep _ _ _ ≠ .fuelOut
      simp [childWalkStep, h0]
    by_cases h1 : x = 1
    · refine ⟨2, ?_⟩
      subst h1
      show childWalkStep _ _ _ ≠ .fuelOut
      simp [childWalkStep, c6WTC, lookupA, c6WFrame, childWalkF,
        childWalkStep]
    · refine ⟨1, ?_⟩
      have hne : (1 : Nat) ≠ x := fun hh => h1 hh.symm
      show childWalkStep _ _ _ ≠ .fuelOut
      simp [childWalkStep, c6WTC, lookupA, h0, hne]
  exact ⟨(c6_amended c6WTC).1 1 (-1),
    (c6_amended c6WTC).2 hcw 1⟩

end Heapspurs
